import Mathlib

/-!
# gfserver / gfclient_download: worker pools and the file streamer

A shallow embedding of `src/handler.c` (server: `serve_file`, `worker_main`,
`cleanup_threads`, `gfs_handler`, `set_pthreads`) and of
`src/gfclient_download.c` (client: `localPath`, `openFile`, `worker_main`,
the producer loop of `main`).

Conventions.
* C integers are `Int`/`Nat`; a cast to `size_t` is `toSizeT` (reduction
  modulo `2 ^ 64`), a cast to `off_t` is `toOffT`.
* Calls into the transfer library, the content store and the kernel are
  oracles collected in an environment structure.  An oracle for a call that
  may be issued many times takes the index of the call as first argument, so
  that the n-th `pread` may answer differently from the (n+1)-th one.
* `serve_file` returns the list of external calls it made (with the value
  each one returned) together with its own result.
* Its `while` loop, which the environment can keep alive forever (`EINTR`
  retries), takes a fuel argument bounding the number of iterations; when the
  fuel runs out the result is `none` and the trace holds the calls made so far.
* The two thread pools are step functions on the globals of their file:
  one step is what a thread does between two releases of the queue lock, and
  a run is a fold over a schedule (a list naming who moves next).
* The file system of the client is explicit state: the set of regular files
  with their contents.
-/

namespace GF

/-! ## Types declared by the library headers -/

/-- Modelled from the spec: the handler result type `gfh_error_t`, declared
in the library header `gfserver.h`, which is not among the sources;
`handler.c` uses its two values, the successful and the failed handling. -/
inductive gfh_error_t where
  | gfh_success
  | gfh_failure
  deriving DecidableEq

/-- Modelled from the spec: the status type `gfstatus_t`, declared in the
library headers, which are not among the sources; the values are the three
the sources name: OK, not found, error. -/
inductive gfstatus_t where
  | GF_OK
  | GF_FILE_NOT_FOUND
  | GF_ERROR
  deriving DecidableEq

open gfh_error_t gfstatus_t

/-- Modelled from the spec: the queue type `steque_t` of `steque.h`, which is
not among the sources. It is the FIFO of the Task Queue: `steque_enqueue`
appends at the tail (`q ++ [x]`), `steque_pop` removes the head,
`steque_isempty` tests for `[]`. -/
abbrev steque_t (α : Type) := List α

/-- Constant `BUFSIZE` of `handler.c`, defined as `(64 * 1024)`. -/
def BUFSIZE : Nat := 64 * 1024

/-- Cast of a signed value to `size_t` (64 bit). -/
def toSizeT (x : Int) : Nat := (x % 2 ^ 64).toNat

/-- Cast of a `size_t` to `off_t` (signed 64 bit). -/
def toOffT (n : Nat) : Int :=
  if n % 2 ^ 64 < 2 ^ 63 then ((n % 2 ^ 64 : Nat) : Int) else ((n % 2 ^ 64 : Nat) : Int) - 2 ^ 64

/-! ## `serve_file` -/

/-- One external call made by `serve_file`, with the value it returned. -/
inductive Event where
  | gfs_sendheader (status : gfstatus_t) (len : Nat) (ret : Int)
  | pread (fd : Int) (count : Nat) (offset : Int) (ret : Int)
  | gfs_send (len : Nat) (ret : Int)
  | gfs_abort
  | close (fd : Int)
  deriving DecidableEq

/-- The world `serve_file` talks to. -/
structure Env where
  /-- Descriptor returned by `content_get(path)`; negative when absent. -/
  content_get : List Char → Int
  /-- Outcome of `fstat(fd, &st)`: `none` when it returns `< 0`, else `st.st_size`. -/
  fstat : Int → Option Int
  /-- Return value of `gfs_sendheader(ctx, status, len)`. -/
  gfs_sendheader : gfstatus_t → Nat → Int
  /-- The `i`-th `pread(fd, buf, count, offset)`: return value, and whether
  `errno == EINTR` afterwards. -/
  pread : Nat → Nat → Int → Int × Bool
  /-- Return value of the `j`-th `gfs_send(ctx, buf, len)`. -/
  gfs_send : Nat → Nat → Int

/-- Trace and result of a run; the result is `none` when the fuel ran out. -/
abbrev Outcome := List Event × Option gfh_error_t

/-- Put events in front of the trace of the rest of the run. -/
def Outcome.after (evs : List Event) (o : Outcome) : Outcome := (evs ++ o.1, o.2)

/-- Lines 74-81: the code after the `while` loop. -/
def serveTail (fd : Int) (sent total : Nat) : Outcome :=
  if sent ≠ total then
    ([Event.gfs_abort, Event.close fd], some gfh_failure)
  else
    ([Event.close fd], some gfh_success)

/-- Lines 53-54: the number of bytes requested from `pread`. -/
def chunkSize (total sent : Nat) : Nat :=
  if total - sent > BUFSIZE then BUFSIZE else total - sent

/-- Lines 52-72: the `while (sent < total)` loop followed by the code after
it.  `i` counts the `pread` calls made so far, `j` the `gfs_send` calls. -/
def serveLoop (env : Env) (fd : Int) (total : Nat) : Nat → Nat → Nat → Nat → Outcome
  | 0, sent, _, _ =>
    if sent < total then ([], none) else serveTail fd sent total
  | fuel + 1, sent, i, j =>
    if sent < total then
      let toread := chunkSize total sent
      let off := toOffT sent
      let r := (env.pread i toread off).1
      let eintr := (env.pread i toread off).2
      let rd := Event.pread fd toread off r
      if r < 0 then
        if eintr then
          Outcome.after [rd] (serveLoop env fd total fuel sent (i + 1) j)
        else
          ([rd, Event.gfs_abort, Event.close fd], some gfh_failure)
      else if r = 0 then
        Outcome.after [rd] (serveTail fd sent total)
      else
        let w := env.gfs_send j (toSizeT r)
        let sd := Event.gfs_send (toSizeT r) w
        if w < 0 ∨ toSizeT w ≠ toSizeT r then
          ([rd, sd, Event.gfs_abort, Event.close fd], some gfh_failure)
        else
          Outcome.after [rd, sd]
            (serveLoop env fd total fuel ((sent + toSizeT r) % 2 ^ 64) (i + 1) (j + 1))
    else
      serveTail fd sent total

/-- Function `serve_file` of `handler.c` (lines 24-82). -/
def serve_file (env : Env) (path : List Char) (fuel : Nat) : Outcome :=
  let fd := env.content_get path
  if fd < 0 then
    let h := env.gfs_sendheader GF_FILE_NOT_FOUND 0
    if h < 0 then
      ([Event.gfs_sendheader GF_FILE_NOT_FOUND 0 h, Event.gfs_abort], some gfh_failure)
    else
      ([Event.gfs_sendheader GF_FILE_NOT_FOUND 0 h], some gfh_success)
  else
    match env.fstat fd with
    | none =>
      ([Event.gfs_sendheader GF_ERROR 0 (env.gfs_sendheader GF_ERROR 0),
        Event.gfs_abort, Event.close fd], some gfh_failure)
    | some st_size =>
      let total := toSizeT st_size
      let h := env.gfs_sendheader GF_OK total
      if h < 0 then
        ([Event.gfs_sendheader GF_OK total h, Event.gfs_abort, Event.close fd],
          some gfh_failure)
      else
        Outcome.after [Event.gfs_sendheader GF_OK total h]
          (serveLoop env fd total fuel 0 0 0)

/-! ### Observations on a trace -/

/-- Sizes of the chunks handed to `gfs_send`, in order. -/
def chunks : List Event → List Nat
  | [] => []
  | Event.gfs_send len _ :: es => len :: chunks es
  | _ :: es => chunks es

/-- Total number of bytes handed to `gfs_send`. -/
def sentBytes (t : List Event) : Nat := (chunks t).sum

/-- Number of `gfs_send` calls. -/
def sendCount (t : List Event) : Nat := (chunks t).length

/-- Number of `gfs_abort` calls. -/
def abortCount (t : List Event) : Nat := t.count Event.gfs_abort

/-- Status and declared length of every header sent, in order. -/
def headers : List Event → List (gfstatus_t × Nat)
  | [] => []
  | Event.gfs_sendheader s len _ :: es => (s, len) :: headers es
  | _ :: es => headers es

/-- The event is a `pread`. -/
def Event.isPread : Event → Bool
  | Event.pread _ _ _ _ => true
  | _ => false

/-- The event is a `gfs_send`. -/
def Event.isSend : Event → Bool
  | Event.gfs_send _ _ => true
  | _ => false

/-- The event is a `close`. -/
def Event.isClose : Event → Bool
  | Event.close _ => true
  | _ => false

/-- An event after which the loop of `serve_file` stops serving: a `pread`
that returned 0, or a `gfs_send` whose return value fails the test of
line 66 (`w < 0 || (size_t)w != (size_t)r`). -/
def Event.fatal : Event → Prop
  | Event.pread _ _ _ r => r = 0
  | Event.gfs_send len w => w < 0 ∨ toSizeT w ≠ len
  | _ => False

/-- Every fatal event of the trace is followed by `gfs_abort`, `close fd`
and nothing else. -/
def StopsAtFatal (fd : Int) : List Event → Prop
  | [] => True
  | e :: rest => (e.fatal → rest = [Event.gfs_abort, Event.close fd]) ∧ StopsAtFatal fd rest

/-- The trace ends with `close fd` and holds no other `close`. -/
def ClosesOnce (fd : Int) (t : List Event) : Prop :=
  ∃ pre, t = pre ++ [Event.close fd] ∧ ∀ e ∈ pre, e.isClose = false

/-! ## The client: `gfclient_download.c` -/

/-- A C string, without its terminating NUL. -/
abbrev Path := List Char

/-- Constant `PATH_BUFFER_SIZE` of `gfclient_download.c`, defined as 512. -/
def PATH_BUFFER_SIZE : Nat := 512

/-- Conversion `%06d` of `sprintf` for a non-negative value: the decimal
digits, padded with zeros on the left to at least six characters. -/
def fmt06d (c : Nat) : List Char :=
  List.replicate (6 - (Nat.repr c).toList.length) '0' ++ (Nat.repr c).toList

/-- The string `localPath` builds: `"%s-%06d"` of `&req_path[1]` and the counter. -/
def localPathStr (req_path : Path) (counter : Nat) : Path :=
  req_path.drop 1 ++ '-' :: fmt06d counter

/-- Function `localPath` (lines 41-44): the bytes `sprintf` stores at
`local_path`, terminating NUL included, and the incremented static counter.
The capacity of the destination is not consulted, as in the source. -/
def localPath (req_path : Path) (counter : Nat) : List Char × Nat :=
  (localPathStr req_path counter ++ [Char.ofNat 0], counter + 1)

/-- The test of line 111, `strlen(task->path) > PATH_BUFFER_SIZE`. -/
def pathTooLong (path : Path) : Bool := decide (path.length > PATH_BUFFER_SIZE)

/-- Struct `request_task_t` (lines 79-84); `local_path` is declared as
`char local_path[PATH_BUFFER_SIZE]`. -/
structure request_task_t where
  path : Path
  local_path : Path
  server : Path
  port : Nat
  deriving DecidableEq

/-- The regular files of the file system, each with its content. -/
structure FS where
  files : List (Path × List Nat)
  deriving DecidableEq

/-- A regular file of that name exists. -/
def FS.fileExists (fs : FS) (p : Path) : Bool := fs.files.any (fun f => decide (f.1 = p))

/-- Successful `fopen(p, "w")`: the file exists afterwards and is empty. -/
def FS.fopen_w (fs : FS) (p : Path) : FS :=
  { files := (p, []) :: fs.files.filter (fun f => decide (f.1 ≠ p)) }

/-- Action `fwrite(data, 1, data_len, file)` on the stream opened on `p`. -/
def FS.fwrite (fs : FS) (p : Path) (data : List Nat) : FS :=
  { files := fs.files.map (fun f => if f.1 = p then (f.1, f.2 ++ data) else f) }

/-- Call `unlink(p)`: removes an existing file and returns 0, returns -1 otherwise. -/
def FS.unlink (fs : FS) (p : Path) : FS × Int :=
  if fs.fileExists p then ({ files := fs.files.filter (fun f => decide (f.1 ≠ p)) }, 0)
  else (fs, -1)

/-- The world of the client. Directories are not part of `FS`; the outcome
of `mkdir` is an oracle. -/
structure ClientEnv where
  /-- Result of `mkdir(p, S_IRWXU)`: return value, and whether `errno == EEXIST`. -/
  mkdir : Path → Int × Bool
  /-- Whether `fopen(p, "w")` returns `NULL`. -/
  fopen_null : Path → Bool
  /-- Call `gfc_perform` for a task: the chunks it hands to the write
  callback, in order, and its return code. -/
  gfc_perform : request_task_t → List (List Nat) × Int
  /-- Value of `gfc_get_status` after `gfc_perform`. -/
  gfc_get_status : request_task_t → gfstatus_t
  /-- Result of the `i`-th `workload_get_path()`. -/
  workload_get_path : Nat → Path
  /-- What a string read finds behind the 512 bytes of a `local_path` that
  holds no NUL: the bytes of the pointer `server` stored by line 221, up to
  the first zero byte. -/
  after_local_path : List Char

/-- The values `cur` takes in the loop of `openFile`: the positions
`>= 1` of the slashes of `path`, found left to right by `strchr(prev + 1, '/')`. -/
def slashPositions (path : Path) : List Nat :=
  (List.range path.length).filter (fun i => decide (1 ≤ i) && decide (path.get? i = some '/'))

/-- The `while` loop of `openFile` (lines 52-62) over the positions of the
slashes; `false` when a `mkdir` fails for a reason other than `EEXIST`
(`exit(EXIT_FAILURE)`). -/
def mkdirLoop (env : ClientEnv) (path : Path) : List Nat → Bool
  | [] => true
  | cur :: rest =>
    if (env.mkdir (path.take cur)).1 < 0 ∧ (env.mkdir (path.take cur)).2 = false then false
    else mkdirLoop env path rest

/-- Function `openFile` (lines 46-70); `none` stands for `exit(EXIT_FAILURE)`. -/
def openFile (env : ClientEnv) (path : Path) (fs : FS) : Option FS :=
  if mkdirLoop env path (slashPositions path) then
    if env.fopen_null path then none else some (fs.fopen_w path)
  else none

/-- Function `writecb` (lines 73-76) on the stream opened on `p`. -/
def writecb (p : Path) (fs : FS) (data : List Nat) : FS := fs.fwrite p data

/-- Lines 119-151 of the client `worker_main`: the download of one accepted
task; `none` stands for `exit(EXIT_FAILURE)` inside `openFile`. -/
def download (env : ClientEnv) (task : request_task_t) (fs : FS) : Option FS :=
  match openFile env task.local_path fs with
  | none => none
  | some fs1 =>
    let returncode := (env.gfc_perform task).2
    let fs2 := (env.gfc_perform task).1.foldl (writecb task.local_path) fs1
    let fs3 := if returncode < 0 then (fs2.unlink task.local_path).1 else fs2
    let fs4 := if env.gfc_get_status task ≠ GF_OK then (fs3.unlink task.local_path).1 else fs3
    some fs4

/-- Where a worker thread stands: at the top of its loop (possibly blocked
in `pthread_cond_wait`), holding a dequeued item, or returned. -/
inductive Pc (α : Type) where
  | idle
  | busy (item : α)
  | exited
  deriving DecidableEq

/-- The thread holds no item. -/
def Pc.notBusy {α : Type} : Pc α → Bool
  | Pc.busy _ => false
  | _ => true

/-- The items (tasks, requests) held by the threads. -/
def busyReqs {α : Type} : List (Pc α) → List α
  | [] => []
  | Pc.busy r :: ws => r :: busyReqs ws
  | _ :: ws => busyReqs ws

/-- Globals of the client (lines 86-93), the file system, the static
counter of `localPath` and the loop variable of the producer loop. -/
structure ClientState where
  q : steque_t request_task_t
  threads : List (Pc request_task_t)
  nrequests : Int
  ncompleted : Int
  stop : Bool
  fs : FS
  counter : Nat
  produced : Nat
  deriving DecidableEq

/-- State of the client once `main` has created its threads (line 214). -/
def clientInit (nthreads : Nat) (nrequests : Int) (fs : FS) : ClientState :=
  { q := [], threads := List.replicate nthreads Pc.idle, nrequests := nrequests,
    ncompleted := 0, stop := false, fs := fs, counter := 0, produced := 0 }

/-- Size in bytes of the field `char *server`, which follows `local_path`
in `request_task_t`. -/
def SERVER_FIELD_SIZE : Nat := 8

/-- The string found in `task->local_path` after lines 220-221, where
`sprintf` stores its output in `char local_path[PATH_BUFFER_SIZE]` and
`t->server` is assigned afterwards.
* The output, NUL included, fits the 512 bytes: the string is the one built.
* The output exceeds the buffer by at most the 8 bytes of `server`: the
  excess lands in that field, which line 221 then overwrites; the buffer
  holds the first 512 characters and no NUL, so a reader of `local_path`
  runs on into `server`.
* The output is longer still: `sprintf` writes past `server`, the behaviour
  is undefined and the result is `none`. -/
def storedLocalPath (env : ClientEnv) (req_path : Path) (counter : Nat) : Option Path :=
  if (localPath req_path counter).1.length ≤ PATH_BUFFER_SIZE then
    some (localPathStr req_path counter)
  else if (localPath req_path counter).1.length ≤ PATH_BUFFER_SIZE + SERVER_FIELD_SIZE then
    some ((localPath req_path counter).1.take PATH_BUFFER_SIZE ++ env.after_local_path)
  else none

/-- One iteration of the producer loop of `main` (lines 216-228); nothing
happens once `nrequests` tasks were enqueued. `none` stands for the
undefined behaviour of a `sprintf` that writes past the field `server`. -/
def produce (env : ClientEnv) (server : Path) (port : Nat) (s : ClientState) :
    Option ClientState :=
  if (s.produced : Int) < s.nrequests then
    match storedLocalPath env (env.workload_get_path s.produced) s.counter with
    | none => none
    | some stored =>
      some { s with
        q := s.q ++ [{ path := env.workload_get_path s.produced, local_path := stored,
                       server := server, port := port }],
        counter := (localPath (env.workload_get_path s.produced) s.counter).2,
        produced := s.produced + 1 }
  else some s

/-- One step of client thread `w` (`worker_main`, lines 96-162). An idle
thread takes the lock: it stays blocked when the queue is empty and `stop`
is clear, returns when `stop` is set and the queue is empty, and pops the
head otherwise. A thread holding a task processes it: a path that is too
long is freed and the loop continues (line 116); otherwise the download
runs and `ncompleted` is incremented under the lock, `stop` being set once
`ncompleted >= nrequests`. `none` stands for `exit(EXIT_FAILURE)`. -/
def clientWorkerStep (env : ClientEnv) (w : Nat) (s : ClientState) : Option ClientState :=
  match s.threads.get? w with
  | none => some s
  | some Pc.exited => some s
  | some Pc.idle =>
    match s.q with
    | [] => if s.stop then some { s with threads := s.threads.set w Pc.exited } else some s
    | task :: rest => some { s with q := rest, threads := s.threads.set w (Pc.busy task) }
  | some (Pc.busy task) =>
    if pathTooLong task.path then
      some { s with threads := s.threads.set w Pc.idle }
    else
      match download env task s.fs with
      | none => none
      | some fs' =>
        some { s with fs := fs', threads := s.threads.set w Pc.idle,
                      ncompleted := s.ncompleted + 1,
                      stop := if s.ncompleted + 1 ≥ s.nrequests then true else s.stop }

/-- What the scheduler runs next: the producer loop of `main`, or thread `w`. -/
inductive ClientAction where
  | produce
  | worker (w : Nat)
  deriving DecidableEq

/-- One scheduled step of the client. -/
def clientStep (env : ClientEnv) (server : Path) (port : Nat) :
    ClientAction → ClientState → Option ClientState
  | ClientAction.produce, s => produce env server port s
  | ClientAction.worker w, s => clientWorkerStep env w s

/-- A run of the client under a schedule; `none` when the process exits
inside `openFile` or the producer runs into undefined behaviour. -/
def clientRun (env : ClientEnv) (server : Path) (port : Nat) :
    List ClientAction → ClientState → Option ClientState
  | [], s => some s
  | a :: rest, s =>
    match clientStep env server port a s with
    | none => none
    | some s' => clientRun env server port rest s'

/-- The task passes the test of line 111. -/
def accepted (t : request_task_t) : Bool := !pathTooLong t.path

/-- Accounting of the client: `ncompleted`, the accepted tasks held by
threads and the accepted tasks in the queue add up to the accepted ones
among the paths produced so far; the producer never exceeds `nrequests`;
`stop` is set exactly when `ncompleted >= nrequests`. -/
def ClientInv (env : ClientEnv) (s : ClientState) : Prop :=
  s.ncompleted + (((busyReqs s.threads).countP accepted + s.q.countP accepted : Nat) : Int) =
      ((((List.range s.produced).map env.workload_get_path).countP
        (fun p => !pathTooLong p) : Nat) : Int) ∧
    (s.produced : Int) ≤ s.nrequests ∧
    (s.stop = true ↔ s.ncompleted ≥ s.nrequests)

/-- Every task was dequeued and processed: the producer is done, the queue
is empty and no thread holds a task. -/
def ClientState.allProcessed (s : ClientState) : Bool :=
  decide ((s.produced : Int) ≥ s.nrequests) && s.q.isEmpty && s.threads.all Pc.notBusy

/-! ## The server: worker pool of `handler.c` -/

/-- Struct `steque_request` of `gfserver-student.h`. Pointers are
identifiers: `ctx` names the library context (the transfer handle),
`ctx_slot` the address of the library's pointer to it, `none` being `NULL`.
The field `arg` is never written after `calloc` nor read, and is left out. -/
structure steque_request where
  filepath : Path
  ctx : Nat
  ctx_slot : Option Nat
  deriving DecidableEq

/-- Calls the worker pool makes on a transfer handle. -/
inductive SrvEvent where
  | serve_file (slot ctx : Nat) (path : Path)
  | gfs_sendheader (slot ctx : Nat) (status : gfstatus_t) (len : Nat)
  | gfs_abort (slot ctx : Nat)
  deriving DecidableEq

/-- The event is a `gfs_abort`. -/
def SrvEvent.isAbort : SrvEvent → Bool
  | SrvEvent.gfs_abort _ _ => true
  | _ => false

/-- Globals of `handler.c` (lines 16-21) and the calls made so far.
`workers` is `[]` when the pointer `workers` is `NULL` (then `nworkers = 0`). -/
structure ServerState where
  queue : steque_t steque_request
  stopping : Bool
  workers : List (Pc steque_request)
  log : List SrvEvent
  destroyed : Bool
  deriving DecidableEq

/-- Function `set_pthreads` (lines 118-135) on the initial globals.
`failing` is the index of the first `pthread_create` that fails, if any: then
`stopping` is set, the threads created so far are joined and `workers`
becomes `NULL`. -/
def set_pthreads (numthreads : Nat) (failing : Option Nat) : ServerState :=
  let n := if numthreads < 1 then 1 else numthreads
  match failing with
  | some i =>
    if i < n then
      { queue := [], stopping := true, workers := [], log := [], destroyed := false }
    else
      { queue := [], stopping := false, workers := List.replicate n Pc.idle, log := [],
        destroyed := false }
  | none =>
    { queue := [], stopping := false, workers := List.replicate n Pc.idle, log := [],
      destroyed := false }

/-- Function `gfs_handler` (lines 170-200), called by the library with the
address `slot` of its context pointer, which holds `ctx`. `calloc_ok` and
`strdup_ok` say whether the two allocations succeed. -/
def gfs_handler (slot ctx : Nat) (path : Option Path) (calloc_ok strdup_ok : Bool)
    (s : ServerState) : ServerState × gfh_error_t :=
  if calloc_ok = false then
    ({ s with log := s.log ++ [SrvEvent.gfs_sendheader slot ctx GF_ERROR 0,
                               SrvEvent.gfs_abort slot ctx] }, gfh_failure)
  else if strdup_ok = false then
    ({ s with log := s.log ++ [SrvEvent.gfs_sendheader slot ctx GF_ERROR 0,
                               SrvEvent.gfs_abort slot ctx] }, gfh_failure)
  else
    let req : steque_request :=
      { filepath := match path with
          | some p => p
          | none => ['/'],
        ctx := ctx, ctx_slot := some slot }
    ({ s with queue := s.queue ++ [req] }, gfh_success)

/-- Lines 101-106: what a worker does with a dequeued request. -/
def serveRequest (r : steque_request) : List SrvEvent :=
  match r.ctx_slot with
  | some slot => [SrvEvent.serve_file slot r.ctx r.filepath]
  | none => []

/-- One step of server thread `w` (`worker_main`, lines 85-116). An idle
thread takes the lock: it stays blocked when the queue is empty and
`stopping` is clear, returns when `stopping` is set and the queue is empty
(line 92), and pops the head otherwise (line 97), whatever `stopping` is.
A thread holding a request serves it outside the lock and frees it. The
queue only holds requests built by `gfs_handler`, so the `NULL` test of
line 99 never fires. -/
def serverWorkerStep (w : Nat) (s : ServerState) : ServerState :=
  match s.workers.get? w with
  | none => s
  | some Pc.exited => s
  | some Pc.idle =>
    match s.queue with
    | [] => if s.stopping then { s with workers := s.workers.set w Pc.exited } else s
    | r :: rest => { s with queue := rest, workers := s.workers.set w (Pc.busy r) }
  | some (Pc.busy r) =>
    { s with log := s.log ++ serveRequest r, workers := s.workers.set w Pc.idle }

/-- The worker threads run under a schedule (a list of thread indices). -/
def runWorkers : List Nat → ServerState → ServerState
  | [], s => s
  | w :: rest, s => runWorkers rest (serverWorkerStep w s)

/-- Lines 150-155 for every request left in the queue: the aborts of the
drain loop of `cleanup_threads`. -/
def drainAborts : List steque_request → List SrvEvent
  | [] => []
  | r :: rest =>
    match r.ctx_slot with
    | some slot => SrvEvent.gfs_abort slot r.ctx :: drainAborts rest
    | none => drainAborts rest

/-- Every thread has returned. -/
def allExited (ws : List (Pc steque_request)) : Bool :=
  ws.all (fun t => decide (t = Pc.exited))

/-- Function `cleanup_threads` (lines 137-167). `stopping` is set; when
`workers` is not `NULL` the threads run under `sched` while the caller
waits in `pthread_join`, and the result is `none` when the schedule ends
before every thread has returned; then the drain loop aborts what is left
in the queue and the queue is destroyed. No request is enqueued meanwhile. -/
def cleanup_threads (sched : List Nat) (s : ServerState) : Option ServerState :=
  let s1 := { s with stopping := true }
  let joined : Option ServerState :=
    if s1.workers = [] then some s1
    else
      let s2 := runWorkers sched s1
      if allExited s2.workers then some { s2 with workers := [] } else none
  match joined with
  | none => none
  | some s3 =>
    some { s3 with log := s3.log ++ drainAborts s3.queue, queue := [], destroyed := true }

/-- The requests for which `serve_file` was called, in order. -/
def servedReqs : List SrvEvent → List steque_request
  | [] => []
  | SrvEvent.serve_file slot ctx path :: es =>
    { filepath := path, ctx := ctx, ctx_slot := some slot } :: servedReqs es
  | _ :: es => servedReqs es

/-- A schedule that lets each of the threads `0 .. n - 1` run `m` steps in turn. -/
def turnSchedule : Nat → Nat → List Nat
  | 0, _ => []
  | n + 1, m => turnSchedule n m ++ List.replicate m n

/-- A bound on the steps thread `w` takes before it returns once `stopping`
is set and the other threads stand still: two per queued request, one to
finish the request it holds, one to see the empty queue. -/
def stepsNeeded (w : Nat) (s : ServerState) : Nat :=
  match s.workers.get? w with
  | some Pc.idle => 2 * s.queue.length + 1
  | some (Pc.busy _) => 2 * s.queue.length + 2
  | _ => 0

/-- What holds while `cleanup_threads` waits in `pthread_join`: `stopping`
is set, a thread has returned only if the queue is empty, and every request
in the queue or held by a thread has a non-`NULL` `ctx_slot` (as every
request built by `gfs_handler` has). -/
def Joining (s : ServerState) : Prop :=
  s.stopping = true ∧ (Pc.exited ∈ s.workers → s.queue = []) ∧
    ∀ r ∈ busyReqs s.workers ++ s.queue, r.ctx_slot ≠ none

/-! ### Concrete environments -/

/-- A fault-free world: descriptor 3, a resource of `size` bytes, every
header accepted, every `pread` and `gfs_send` complete. -/
def plainEnv (size : Int) : Env where
  content_get := fun _ => 3
  fstat := fun _ => some size
  gfs_sendheader := fun _ _ => 0
  pread := fun _ n _ => ((n : Int), false)
  gfs_send := fun _ n => (n : Int)

/-- A 10-byte resource whose first `pread` returns 4 of the 10 bytes asked
for; later reads are complete. -/
def partialReadEnv : Env :=
  { plainEnv 10 with pread := fun i n _ => if i = 0 then (4, false) else ((n : Int), false) }

/-- A resource of three full chunks whose third `pread` returns 0. -/
def eofEnv : Env :=
  { plainEnv (3 * 65536) with pread := fun i n _ => if i = 2 then (0, false) else ((n : Int), false) }

/-- A 10-byte resource whose `gfs_send` accepts 4 of the 10 bytes. -/
def shortSendEnv : Env :=
  { plainEnv 10 with gfs_send := fun _ _ => 4 }

/-- An absent resource on a connection whose header send fails. -/
def headerFailEnv : Env :=
  { plainEnv 0 with content_get := fun _ => -1, gfs_sendheader := fun _ _ => -1 }

/-- An absent resource on a healthy connection. -/
def absentEnv : Env :=
  { plainEnv 0 with content_get := fun _ => -1 }

/-- A healthy client world: every `mkdir` and `fopen` succeeds, every
transfer delivers the two bytes 1, 2 and ends with `GF_OK`; the workload
holds the one path `/a`. -/
def okClientEnv : ClientEnv where
  mkdir := fun _ => (0, false)
  fopen_null := fun _ => false
  gfc_perform := fun _ => ([[1, 2]], 0)
  gfc_get_status := fun _ => GF_OK
  workload_get_path := fun _ => ['/', 'a']
  after_local_path := []

/-- A healthy client world whose workload holds one path of 513
characters, one more than `PATH_BUFFER_SIZE`. -/
def longPathEnv : ClientEnv :=
  { okClientEnv with workload_get_path := fun _ => '/' :: List.replicate 512 'a' }

/-- The client state reached from `clientInit 1 1` once the only task, whose
path is too long, was enqueued, dequeued and rejected. -/
def stuckClient : ClientState :=
  { q := [], threads := [Pc.idle], nrequests := 1, ncompleted := 0, stop := false,
    fs := { files := [] }, counter := 1, produced := 1 }

/-- The task `main` builds for the path `/a` when the counter is 0. -/
def taskA : request_task_t :=
  { path := ['/', 'a'], local_path := localPathStr ['/', 'a'] 0, server := [], port := 0 }

/-- A client thread holding `taskA`, with an empty file system. -/
def holdingClient : ClientState :=
  { q := [], threads := [Pc.busy taskA],
    nrequests := 1, ncompleted := 0, stop := false,
    fs := { files := [] }, counter := 1, produced := 1 }

/-- One worker thread, one request for `/a` on handle 42 (slot 7) queued. -/
def oneQueued : ServerState :=
  (gfs_handler 7 42 (some ['/', 'a']) true true (set_pthreads 1 none)).1

/-! ## Lemmas on `serve_file` -/

theorem after_fst (evs : List Event) (o : Outcome) : (Outcome.after evs o).1 = evs ++ o.1 := rfl

theorem ClosesOnce.append {fd : Int} {t : List Event} (evs : List Event)
    (hevs : ∀ e ∈ evs, e.isClose = false) (h : ClosesOnce fd t) : ClosesOnce fd (evs ++ t) := by
  obtain ⟨pre, hpre, hno⟩ := h
  refine ⟨evs ++ pre, by rw [hpre, List.append_assoc], ?_⟩
  intro e he
  rcases List.mem_append.1 he with he | he
  · exact hevs e he
  · exact hno e he

theorem serveTail_close (fd : Int) (sent total : Nat) :
    ClosesOnce fd (serveTail fd sent total).1 := by
  unfold serveTail
  split_ifs
  · exact ⟨[Event.gfs_abort], rfl, by simp [Event.isClose]⟩
  · exact ⟨[], rfl, by simp⟩

theorem serveLoop_close (env : Env) (fd : Int) (total : Nat) :
    ∀ fuel sent i j res, (serveLoop env fd total fuel sent i j).2 = some res →
      ClosesOnce fd (serveLoop env fd total fuel sent i j).1 := by
  intro fuel
  induction fuel with
  | zero =>
    intro sent i j res h
    simp only [serveLoop] at h ⊢
    split_ifs at h ⊢
    exact serveTail_close fd sent total
  | succ fuel ih =>
    intro sent i j res h
    simp only [serveLoop] at h ⊢
    split_ifs at h ⊢
    · exact ClosesOnce.append _ (by simp [Event.isClose]) (ih _ _ _ res h)
    · exact ⟨[_, Event.gfs_abort], rfl, by simp [Event.isClose]⟩
    · exact ClosesOnce.append _ (by simp [Event.isClose]) (serveTail_close fd sent total)
    · exact ⟨[_, _, Event.gfs_abort], rfl, by simp [Event.isClose]⟩
    · exact ClosesOnce.append _ (by simp [Event.isClose]) (ih _ _ _ res h)
    · exact serveTail_close fd sent total

theorem serveTail_of_lt {sent total : Nat} (fd : Int) (h : sent < total) :
    serveTail fd sent total = ([Event.gfs_abort, Event.close fd], some gfh_failure) := by
  unfold serveTail
  rw [if_pos (Nat.ne_of_lt h)]

theorem serveTail_stops (fd : Int) (sent total : Nat) :
    StopsAtFatal fd (serveTail fd sent total).1 ∧
      ∀ e ∈ (serveTail fd sent total).1, ¬ e.fatal := by
  unfold serveTail
  split_ifs <;> simp [StopsAtFatal, Event.fatal]

theorem StopsAtFatal.split {fd : Int} :
    ∀ (pre : List Event) {t : List Event}, StopsAtFatal fd t →
      ∀ e post, t = pre ++ e :: post → e.fatal → post = [Event.gfs_abort, Event.close fd]
  | [], t, h, e, post, ht, he => by
    subst ht
    exact h.1 he
  | p :: pre, t, h, e, post, ht, he => by
    subst ht
    exact StopsAtFatal.split pre h.2 e post rfl he

theorem serveLoop_stops (env : Env) (fd : Int) (total : Nat) :
    ∀ fuel sent i j, StopsAtFatal fd (serveLoop env fd total fuel sent i j).1 ∧
      ∀ e ∈ (serveLoop env fd total fuel sent i j).1, e.fatal →
        (serveLoop env fd total fuel sent i j).2 = some gfh_failure := by
  intro fuel
  induction fuel with
  | zero =>
    intro sent i j
    simp only [serveLoop]
    split_ifs
    · simp [StopsAtFatal]
    · exact ⟨(serveTail_stops fd sent total).1,
        fun e he hf => absurd hf ((serveTail_stops fd sent total).2 e he)⟩
  | succ fuel ih =>
    intro sent i j
    simp only [serveLoop]
    split_ifs with hlt hneg heintr hzero hbad
    · obtain ⟨h1, h2⟩ := ih sent (i + 1) j
      refine ⟨⟨fun hf => ?_, h1⟩, ?_⟩
      · exact absurd hf (ne_of_lt hneg)
      · intro e he hf
        rcases List.mem_cons.1 he with rfl | he
        · exact absurd hf (ne_of_lt hneg)
        · exact h2 e he hf
    · refine ⟨⟨fun hf => absurd hf (ne_of_lt hneg), by simp [StopsAtFatal, Event.fatal]⟩, ?_⟩
      intro e _ _
      rfl
    · rw [serveTail_of_lt fd hlt]
      refine ⟨⟨fun _ => rfl, by simp [StopsAtFatal, Event.fatal]⟩, ?_⟩
      intro e _ _
      rfl
    · refine ⟨⟨fun hf => absurd hf hzero, fun _ => rfl, by simp [StopsAtFatal, Event.fatal]⟩, ?_⟩
      intro e _ _
      rfl
    · obtain ⟨h1, h2⟩ := ih ((sent + toSizeT (env.pread i (chunkSize total sent) (toOffT sent)).1) % 2 ^ 64)
        (i + 1) (j + 1)
      refine ⟨⟨fun hf => absurd hf hzero, fun hf => absurd hf hbad, h1⟩, ?_⟩
      intro e he hf
      rcases List.mem_cons.1 he with rfl | he
      · exact absurd hf hzero
      rcases List.mem_cons.1 he with rfl | he
      · exact absurd hf hbad
      · exact h2 e he hf
    · exact ⟨(serveTail_stops fd sent total).1,
        fun e he hf => absurd hf ((serveTail_stops fd sent total).2 e he)⟩

/-- Traces of `serve_file`: every fatal event is followed by `gfs_abort`,
`close fd` and nothing else, and a trace holding one belongs to a run that
returned `gfh_failure`. -/
theorem serve_file_stops (env : Env) (path : List Char) (fuel : Nat) :
    StopsAtFatal (env.content_get path) (serve_file env path fuel).1 ∧
      ∀ e ∈ (serve_file env path fuel).1, e.fatal →
        (serve_file env path fuel).2 = some gfh_failure := by
  unfold serve_file
  simp only
  split_ifs with hfd hh
  · simp [StopsAtFatal, Event.fatal]
  · simp [StopsAtFatal, Event.fatal]
  · cases hst : env.fstat (env.content_get path) with
    | none => simp [StopsAtFatal, Event.fatal]
    | some st =>
      simp only
      split_ifs with hh
      · simp [StopsAtFatal, Event.fatal]
      · obtain ⟨h1, h2⟩ := serveLoop_stops env (env.content_get path) (toSizeT st) fuel 0 0 0
        refine ⟨⟨fun hf => absurd hf (by simp [Event.fatal]), h1⟩, ?_⟩
        intro e he hf
        rcases List.mem_cons.1 he with rfl | he
        · exact absurd hf (by simp [Event.fatal])
        · exact h2 e he hf

theorem toSizeT_of_nonneg {w : Int} (h0 : 0 ≤ w) (h1 : w < 2 ^ 64) : toSizeT w = w.toNat := by
  unfold toSizeT
  rw [Int.emod_eq_of_lt h0 h1]

theorem toSizeT_natCast {n : Nat} (h : n < 2 ^ 64) : toSizeT (n : Int) = n := by
  rw [toSizeT_of_nonneg (Int.natCast_nonneg n) (by exact_mod_cast h)]
  exact Int.toNat_natCast n

theorem chunkSize_le (total sent : Nat) : chunkSize total sent ≤ total - sent := by
  unfold chunkSize
  split_ifs with h
  · exact le_of_lt h
  · exact le_refl _

theorem chunkSize_pos {total sent : Nat} (h : sent < total) : 0 < chunkSize total sent := by
  unfold chunkSize BUFSIZE
  split_ifs <;> omega

theorem serveTail_headers (fd : Int) (sent total : Nat) : headers (serveTail fd sent total).1 = [] := by
  unfold serveTail
  split_ifs <;> rfl

theorem serveLoop_headers (env : Env) (fd : Int) (total : Nat) :
    ∀ fuel sent i j, headers (serveLoop env fd total fuel sent i j).1 = [] := by
  intro fuel
  induction fuel with
  | zero =>
    intro sent i j
    simp only [serveLoop]
    split_ifs
    · rfl
    · exact serveTail_headers fd sent total
  | succ fuel ih =>
    intro sent i j
    simp only [serveLoop]
    split_ifs
    · simpa [after_fst, headers] using ih _ _ _
    · rfl
    · simpa [after_fst, headers] using serveTail_headers fd sent total
    · rfl
    · simpa [after_fst, headers] using ih _ _ _
    · exact serveTail_headers fd sent total

/-- Loop behaviour behind C1: with complete reads and complete sends the
loop ends within `ceil ((total - sent) / 65536)` iterations, having sent
that many chunks, `total - sent` bytes in all, without any abort. -/
theorem serveLoop_no_faults (env : Env) (fd : Int) (total : Nat) (htotal : total < 2 ^ 64)
    (hread : ∀ i n off, (env.pread i n off).1 = (n : Int))
    (hsend : ∀ j n, env.gfs_send j n = (n : Int)) :
    ∀ fuel sent i j, sent ≤ total → (total - sent + 65535) / 65536 ≤ fuel →
      (serveLoop env fd total fuel sent i j).2 = some gfh_success ∧
      sentBytes (serveLoop env fd total fuel sent i j).1 = total - sent ∧
      sendCount (serveLoop env fd total fuel sent i j).1 = (total - sent + 65535) / 65536 ∧
      abortCount (serveLoop env fd total fuel sent i j).1 = 0 := by
  intro fuel
  induction fuel with
  | zero =>
    intro sent i j hle hfuel
    have : sent = total := by omega
    subst this
    simp [serveLoop, serveTail, sentBytes, sendCount, chunks, abortCount]
  | succ fuel ih =>
    intro sent i j hle hfuel
    by_cases hlt : sent < total
    · have hpos := chunkSize_pos hlt
      have hc := chunkSize_le total sent
      have hcs : toSizeT ((chunkSize total sent : Nat) : Int) = chunkSize total sent :=
        toSizeT_natCast (by omega)
      have hmod : (sent + chunkSize total sent) % 2 ^ 64 = sent + chunkSize total sent :=
        Nat.mod_eq_of_lt (by omega)
      have hstep : serveLoop env fd total (fuel + 1) sent i j =
          Outcome.after [Event.pread fd (chunkSize total sent) (toOffT sent) (chunkSize total sent),
            Event.gfs_send (chunkSize total sent) (chunkSize total sent)]
            (serveLoop env fd total fuel (sent + chunkSize total sent) (i + 1) (j + 1)) := by
        simp only [serveLoop, if_pos hlt, hread, hsend, hcs, hmod]
        rw [if_neg (by omega), if_neg (by omega), if_neg (by simp)]
      have hfuel' : (total - (sent + chunkSize total sent) + 65535) / 65536 ≤ fuel := by
        unfold chunkSize BUFSIZE at hpos hc ⊢
        split_ifs at hpos hc ⊢ <;> omega
      obtain ⟨h1, h2, h3, h4⟩ := ih (sent + chunkSize total sent) (i + 1) (j + 1) (by omega) hfuel'
      rw [hstep]
      refine ⟨h1, ?_, ?_, ?_⟩
      · simp only [after_fst]
        have : sentBytes ([Event.pread fd (chunkSize total sent) (toOffT sent) (chunkSize total sent),
            Event.gfs_send (chunkSize total sent) (chunkSize total sent)] ++
            (serveLoop env fd total fuel (sent + chunkSize total sent) (i + 1) (j + 1)).1) =
            chunkSize total sent +
              sentBytes (serveLoop env fd total fuel (sent + chunkSize total sent) (i + 1) (j + 1)).1 := by
          simp [sentBytes, chunks]
        rw [this, h2]
        omega
      · simp only [after_fst]
        have : sendCount ([Event.pread fd (chunkSize total sent) (toOffT sent) (chunkSize total sent),
            Event.gfs_send (chunkSize total sent) (chunkSize total sent)] ++
            (serveLoop env fd total fuel (sent + chunkSize total sent) (i + 1) (j + 1)).1) =
            sendCount (serveLoop env fd total fuel (sent + chunkSize total sent) (i + 1) (j + 1)).1 + 1 := by
          simp [sendCount, chunks]
        rw [this, h3]
        unfold chunkSize BUFSIZE at hpos hc ⊢
        split_ifs at hpos hc ⊢ <;> omega
      · simpa [after_fst, abortCount] using h4
    · have : sent = total := le_antisymm hle (not_lt.1 hlt)
      subst this
      simp [serveLoop, serveTail, sentBytes, sendCount, chunks, abortCount]

/-! ## The claims on `serve_file` -/

/-- C3 (as amended): when `content_get` returns a negative descriptor,
`serve_file` sends exactly one header, with status `GF_FILE_NOT_FOUND` and
length 0, and hands no chunk to `gfs_send`; when that header send does not
fail, `gfs_abort` is not called and the result is `gfh_success`; when it
fails, the only further call is one `gfs_abort` and the result is
`gfh_failure`. -/
theorem serve_file_not_found (env : Env) (path : List Char) (fuel : Nat)
    (hfd : env.content_get path < 0) :
    headers (serve_file env path fuel).1 = [(GF_FILE_NOT_FOUND, 0)] ∧
    chunks (serve_file env path fuel).1 = [] ∧
    (0 ≤ env.gfs_sendheader GF_FILE_NOT_FOUND 0 →
      abortCount (serve_file env path fuel).1 = 0 ∧
      (serve_file env path fuel).2 = some gfh_success) ∧
    (env.gfs_sendheader GF_FILE_NOT_FOUND 0 < 0 →
      serve_file env path fuel =
        ([Event.gfs_sendheader GF_FILE_NOT_FOUND 0 (env.gfs_sendheader GF_FILE_NOT_FOUND 0),
          Event.gfs_abort], some gfh_failure)) := by
  unfold serve_file
  simp only [if_pos hfd]
  split_ifs with hh
  · refine ⟨rfl, rfl, fun h0 => absurd hh (not_lt.2 h0), fun _ => rfl⟩
  · refine ⟨rfl, rfl, fun _ => ⟨by simp [abortCount], rfl⟩, fun h0 => absurd h0 hh⟩

/-- Witness for C3 (as amended): an absent resource on a healthy connection. -/
theorem serve_file_not_found_witness :
    absentEnv.content_get [] < 0 ∧
    headers (serve_file absentEnv [] 0).1 = [(GF_FILE_NOT_FOUND, 0)] ∧
    chunks (serve_file absentEnv [] 0).1 = [] ∧
    (0 ≤ absentEnv.gfs_sendheader GF_FILE_NOT_FOUND 0 →
      abortCount (serve_file absentEnv [] 0).1 = 0 ∧
      (serve_file absentEnv [] 0).2 = some gfh_success) ∧
    (absentEnv.gfs_sendheader GF_FILE_NOT_FOUND 0 < 0 →
      serve_file absentEnv [] 0 =
        ([Event.gfs_sendheader GF_FILE_NOT_FOUND 0 (absentEnv.gfs_sendheader GF_FILE_NOT_FOUND 0),
          Event.gfs_abort], some gfh_failure)) :=
  ⟨by decide, serve_file_not_found absentEnv [] 0 (by decide)⟩

/-- C3 fails as stated: for an absent resource whose header send returns a
negative value, `serve_file` calls `gfs_abort` and returns `gfh_failure`. -/
theorem not_found_header_failure_aborts :
    headerFailEnv.content_get [] < 0 ∧
    serve_file headerFailEnv [] 0 =
      ([Event.gfs_sendheader GF_FILE_NOT_FOUND 0 (-1), Event.gfs_abort], some gfh_failure) ∧
    abortCount (serve_file headerFailEnv [] 0).1 = 1 := by
  decide

/-- C8: when `content_get` returned a descriptor `fd >= 0` and the run
finishes, whatever `fstat`, the header send, the `pread`s and the
`gfs_send`s returned, the trace ends with `close fd` and holds no other
`close`: the descriptor is closed exactly once, as the last call before
`serve_file` returns, so that no `pread` follows the close. -/
theorem serve_file_closes_once (env : Env) (path : List Char) (fuel : Nat)
    (res : gfh_error_t) (hfd : 0 ≤ env.content_get path)
    (hres : (serve_file env path fuel).2 = some res) :
    ∃ pre, (serve_file env path fuel).1 = pre ++ [Event.close (env.content_get path)] ∧
      ∀ e ∈ pre, e.isClose = false := by
  unfold serve_file at hres ⊢
  simp only [if_neg (not_lt.2 hfd)] at hres ⊢
  cases hst : env.fstat (env.content_get path) with
  | none => exact ⟨[_, Event.gfs_abort], rfl, by simp [Event.isClose]⟩
  | some st =>
    simp only [hst] at hres ⊢
    split_ifs at hres ⊢ with hh
    · exact ⟨[_, Event.gfs_abort], rfl, by simp [Event.isClose]⟩
    · exact ClosesOnce.append _ (by simp [Event.isClose]) (serveLoop_close env _ _ fuel 0 0 0 res hres)

/-- Witness for C8: a 10-byte resource served without faults. -/
theorem serve_file_closes_once_witness :
    0 ≤ (plainEnv 10).content_get [] ∧
    (serve_file (plainEnv 10) [] 4).2 = some gfh_success ∧
    ∃ pre, (serve_file (plainEnv 10) [] 4).1 = pre ++ [Event.close ((plainEnv 10).content_get [])] ∧
      ∀ e ∈ pre, e.isClose = false :=
  ⟨by decide, by decide, serve_file_closes_once (plainEnv 10) [] 4 gfh_success (by decide) (by decide)⟩

/-- C7: if some `gfs_send` of the run returned a value `w` different from
the number `len` of bytes handed to it (`w` being an `ssize_t`, so below
`2 ^ 63`), then `serve_file` returned `gfh_failure` and what follows that
`gfs_send` in the trace is `gfs_abort`, `close fd` and nothing else: no
further `pread`, no further `gfs_send`. -/
theorem serve_file_short_send (env : Env) (path : List Char) (fuel : Nat) (len : Nat) (w : Int)
    (hw : w < 2 ^ 63) (hne : w ≠ (len : Int))
    (hmem : Event.gfs_send len w ∈ (serve_file env path fuel).1) :
    (serve_file env path fuel).2 = some gfh_failure ∧
    ∀ pre post, (serve_file env path fuel).1 = pre ++ Event.gfs_send len w :: post →
      post = [Event.gfs_abort, Event.close (env.content_get path)] := by
  have hfatal : (Event.gfs_send len w).fatal := by
    by_cases h0 : w < 0
    · exact Or.inl h0
    · right
      rw [toSizeT_of_nonneg (not_lt.1 h0) (lt_trans hw (by norm_num))]
      intro h
      apply hne
      rw [← h, Int.toNat_of_nonneg (not_lt.1 h0)]
  obtain ⟨h1, h2⟩ := serve_file_stops env path fuel
  exact ⟨h2 _ hmem hfatal, fun pre post ht => StopsAtFatal.split pre h1 _ post ht hfatal⟩

/-- Witness for C7: `gfs_send` accepts 4 of 10 bytes. -/
theorem serve_file_short_send_witness :
    (4 : Int) < 2 ^ 63 ∧ (4 : Int) ≠ ((10 : Nat) : Int) ∧
    Event.gfs_send 10 4 ∈ (serve_file shortSendEnv [] 4).1 ∧
    (serve_file shortSendEnv [] 4).2 = some gfh_failure ∧
    ∀ pre post, (serve_file shortSendEnv [] 4).1 = pre ++ Event.gfs_send 10 4 :: post →
      post = [Event.gfs_abort, Event.close (shortSendEnv.content_get [])] :=
  ⟨by decide, by decide, by decide,
    serve_file_short_send shortSendEnv [] 4 10 4 (by decide) (by decide) (by decide)⟩

/-- C2 fails on the code. The claim, like the comment of line 23 ("Abort on
short read/write") and the test of line 66 for short writes, wants a
`pread` that returns fewer bytes than requested to end in `gfs_abort` with
nothing more sent. Line 63 only tests `r == 0`: when the first `pread` of a
10-byte resource, issued at offset 0 for 10 bytes, returns 4, the 4 bytes
are sent, the rest is read and sent, `gfs_abort` is never called and the
result is `gfh_success`. -/
theorem short_read_is_not_aborted :
    serve_file partialReadEnv [] 4 =
      ([Event.gfs_sendheader GF_OK 10 0, Event.pread 3 10 0 4, Event.gfs_send 4 4,
        Event.pread 3 6 4 6, Event.gfs_send 6 6, Event.close 3], some gfh_success) ∧
    abortCount (serve_file partialReadEnv [] 4).1 = 0 := by
  decide

/-- The one short read the loop does abort on (line 63): if a `pread` of the
run, issued at offset `k`, returned 0, then `serve_file` returned `gfh_failure`, `gfs_abort` was
called, and what follows that `pread` in the trace is `gfs_abort`,
`close fd` and nothing else, so no chunk is handed to `gfs_send` after it. -/
theorem serve_file_eof_aborts (env : Env) (path : List Char) (fuel : Nat)
    (fd : Int) (count : Nat) (k : Int)
    (hmem : Event.pread fd count k 0 ∈ (serve_file env path fuel).1) :
    (serve_file env path fuel).2 = some gfh_failure ∧
    Event.gfs_abort ∈ (serve_file env path fuel).1 ∧
    ∀ pre post, (serve_file env path fuel).1 = pre ++ Event.pread fd count k 0 :: post →
      post = [Event.gfs_abort, Event.close (env.content_get path)] := by
  have hfatal : (Event.pread fd count k 0).fatal := rfl
  obtain ⟨h1, h2⟩ := serve_file_stops env path fuel
  have hsplit := fun pre post ht => @StopsAtFatal.split (env.content_get path) pre _ h1
    (Event.pread fd count k 0) post ht hfatal
  refine ⟨h2 _ hmem hfatal, ?_, hsplit⟩
  obtain ⟨pre, post, ht⟩ := List.append_of_mem hmem
  rw [ht, hsplit pre post ht]
  simp

/-- An instance of `serve_file_eof_aborts`: the third `pread` of a
three-chunk resource returns 0. -/
theorem serve_file_eof_aborts_witness :
    Event.pread 3 65536 131072 0 ∈ (serve_file eofEnv [] 4).1 ∧
    (serve_file eofEnv [] 4).2 = some gfh_failure ∧
    Event.gfs_abort ∈ (serve_file eofEnv [] 4).1 ∧
    ∀ pre post, (serve_file eofEnv [] 4).1 = pre ++ Event.pread 3 65536 131072 0 :: post →
      post = [Event.gfs_abort, Event.close (eofEnv.content_get [])] :=
  ⟨by decide, serve_file_eof_aborts eofEnv [] 4 3 65536 131072 (by decide)⟩

/-- C1: for a resource of length `L` (an `off_t`, so `0 <= L < 2 ^ 63`)
served without faults (descriptor obtained, `fstat` succeeds, the `GF_OK`
header send does not fail, every `pread` returns the count it was asked
for, every `gfs_send` returns the length it was given), any fuel of at
least `ceil (L / 65536)` iterations lets the run finish; it returns
`gfh_success`, the chunks handed to `gfs_send` sum to exactly `L`, there are
exactly `ceil (L / 65536)` of them, the one header sent is `GF_OK` with
length `L`, and `gfs_abort` is never called.  The case `L = 0` is included. -/
theorem serve_file_no_faults (env : Env) (path : List Char) (L fuel : Nat)
    (hfd : 0 ≤ env.content_get path)
    (hst : env.fstat (env.content_get path) = some (L : Int))
    (hL : L < 2 ^ 63)
    (hhdr : 0 ≤ env.gfs_sendheader GF_OK L)
    (hread : ∀ i n off, (env.pread i n off).1 = (n : Int))
    (hsend : ∀ j n, env.gfs_send j n = (n : Int))
    (hfuel : (L + 65535) / 65536 ≤ fuel) :
    (serve_file env path fuel).2 = some gfh_success ∧
    sentBytes (serve_file env path fuel).1 = L ∧
    sendCount (serve_file env path fuel).1 = (L + 65535) / 65536 ∧
    headers (serve_file env path fuel).1 = [(GF_OK, L)] ∧
    abortCount (serve_file env path fuel).1 = 0 := by
  have hLs : toSizeT (L : Int) = L := toSizeT_natCast (by omega)
  obtain ⟨h1, h2, h3, h4⟩ := serveLoop_no_faults env (env.content_get path) L (by omega)
    hread hsend fuel 0 0 0 (Nat.zero_le _) (by simpa using hfuel)
  have hrun : serve_file env path fuel =
      Outcome.after [Event.gfs_sendheader GF_OK L (env.gfs_sendheader GF_OK L)]
        (serveLoop env (env.content_get path) L fuel 0 0 0) := by
    unfold serve_file
    simp only [if_neg (not_lt.2 hfd), hst, hLs, if_neg (not_lt.2 hhdr)]
  rw [hrun]
  refine ⟨h1, ?_, ?_, ?_, ?_⟩
  · simpa [after_fst, sentBytes, chunks] using h2
  · simpa [after_fst, sendCount, chunks] using h3
  · simp [after_fst, headers, serveLoop_headers]
  · simpa [after_fst, abortCount] using h4

/-- Witness for C1: a resource of one full chunk and one byte. -/
theorem serve_file_no_faults_witness :
    0 ≤ (plainEnv 65537).content_get [] ∧
    (serve_file (plainEnv 65537) [] 2).2 = some gfh_success ∧
    sentBytes (serve_file (plainEnv 65537) [] 2).1 = 65537 ∧
    sendCount (serve_file (plainEnv 65537) [] 2).1 = (65537 + 65535) / 65536 ∧
    headers (serve_file (plainEnv 65537) [] 2).1 = [(GF_OK, 65537)] ∧
    abortCount (serve_file (plainEnv 65537) [] 2).1 = 0 :=
  ⟨by decide, serve_file_no_faults (plainEnv 65537) [] 65537 2 (by decide) rfl (by norm_num)
    (by decide) (fun _ _ _ => rfl) (fun _ _ => rfl) (by norm_num)⟩

theorem fmt06d_length {c : Nat} (hc : c < 1000000) : (fmt06d c).length = 6 := by
  have h : (Nat.repr c).toList.length ≤ 6 := Nat.repr_length c 6 (by norm_num) (by omega)
  unfold fmt06d
  rw [List.length_append, List.length_replicate]
  omega

/-- C9: for a request path of length `n >= 1` and a counter below 1000000,
`localPath` stores `n + 7` bytes: the `n - 1` characters after the first,
a dash, six digits and the terminating NUL.  The test of the worker rejects
a path exactly when `n > 512`, so a path of length 512 is accepted while its
local path takes 519 bytes, 7 more than the 512 bytes of `local_path`; such
a path exists. -/
theorem localPath_overflow (req_path : Path) (c : Nat)
    (hn : 1 ≤ req_path.length) (hc : c < 1000000) :
    (localPath req_path c).1.length = req_path.length + 7 ∧
    (localPath req_path c).1 = req_path.tail ++ '-' :: fmt06d c ++ [Char.ofNat 0] ∧
    req_path.tail.length = req_path.length - 1 ∧
    (fmt06d c).length = 6 ∧
    (pathTooLong req_path = true ↔ 512 < req_path.length) ∧
    (req_path.length = 512 →
      pathTooLong req_path = false ∧
      (localPath req_path c).1.length = PATH_BUFFER_SIZE + 7) ∧
    ∃ p : Path, p.length = 512 ∧ pathTooLong p = false ∧ (localPath p c).1.length = 519 := by
  have h6 := fmt06d_length hc
  have hlen : ∀ p : Path, 1 ≤ p.length → (localPath p c).1.length = p.length + 7 := by
    intro p hp
    simp only [localPath, localPathStr, List.length_append, List.length_cons, List.length_drop,
      List.length_nil, h6]
    omega
  refine ⟨hlen req_path hn, ?_, by simp, h6, by simp [pathTooLong, PATH_BUFFER_SIZE], ?_, ?_⟩
  · simp [localPath, localPathStr]
  · intro h512
    refine ⟨by simp [pathTooLong, PATH_BUFFER_SIZE, h512], ?_⟩
    rw [hlen req_path hn, h512]
    rfl
  · obtain ⟨p, hp⟩ : ∃ p : Path, p.length = 512 :=
      ⟨List.replicate 512 'a', List.length_replicate _ _⟩
    refine ⟨p, hp, by simp [pathTooLong, PATH_BUFFER_SIZE, hp], ?_⟩
    rw [hlen p (by omega), hp]

/-- Witness for C9: the path `/a` with counter 7. -/
theorem localPath_overflow_witness :
    1 ≤ (['/', 'a'] : Path).length ∧ 7 < 1000000 ∧
    (localPath ['/', 'a'] 7).1 = ['a', '-', '0', '0', '0', '0', '0', '7', Char.ofNat 0] ∧
    (localPath ['/', 'a'] 7).1.length = (['/', 'a'] : Path).length + 7 :=
  ⟨by decide, by decide, by decide, (localPath_overflow ['/', 'a'] 7 (by decide) (by decide)).1⟩

theorem FS.fileExists_fopen_w (fs : FS) (p : Path) : (fs.fopen_w p).fileExists p = true := by
  simp [FS.fileExists, FS.fopen_w]

theorem FS.fileExists_fwrite (fs : FS) (p : Path) (data : List Nat) (q : Path) :
    (fs.fwrite p data).fileExists q = fs.fileExists q := by
  cases fs with
  | mk files =>
    simp only [FS.fileExists, FS.fwrite]
    induction files with
    | nil => rfl
    | cons f rest ih =>
      simp only [List.map_cons, List.any_cons, ih]
      split_ifs <;> rfl

theorem fileExists_foldl_writecb (p : Path) (q : Path) :
    ∀ (cs : List (List Nat)) (fs : FS), (cs.foldl (writecb p) fs).fileExists q = fs.fileExists q
  | [], fs => rfl
  | c :: cs, fs => by
    rw [List.foldl_cons, fileExists_foldl_writecb p q cs, writecb, FS.fileExists_fwrite]

theorem FS.fileExists_unlink (fs : FS) (p : Path) : (fs.unlink p).1.fileExists p = false := by
  unfold FS.unlink
  split_ifs with h
  · simp [FS.fileExists, List.any_filter]
  · simpa using h

/-- In this model `unlink` of an existing file succeeds. -/
theorem FS.unlink_existing (fs : FS) (p : Path) (h : fs.fileExists p = true) :
    (fs.unlink p).2 = 0 := by
  unfold FS.unlink
  rw [if_pos h]

/-- The download of a task whose destination could be opened ends, and the
destination exists afterwards exactly when the return code was
non-negative and the status `GF_OK`. -/
theorem download_spec (env : ClientEnv) (task : request_task_t) (fs fs1 : FS)
    (hopen : openFile env task.local_path fs = some fs1) :
    ∃ fs', download env task fs = some fs' ∧
      (fs'.fileExists task.local_path = true ↔
        0 ≤ (env.gfc_perform task).2 ∧ env.gfc_get_status task = GF_OK) := by
  have hex1 : fs1.fileExists task.local_path = true := by
    unfold openFile at hopen
    split_ifs at hopen
    cases hopen
    exact FS.fileExists_fopen_w fs task.local_path
  have hex2 : ((env.gfc_perform task).1.foldl (writecb task.local_path) fs1).fileExists
      task.local_path = true := by
    rw [fileExists_foldl_writecb, hex1]
  unfold download
  rw [hopen]
  refine ⟨_, rfl, ?_⟩
  by_cases hrc : (env.gfc_perform task).2 < 0
  · by_cases hstat : env.gfc_get_status task = GF_OK
    · simp [hrc, hstat, FS.fileExists_unlink]
    · simp [hrc, hstat, FS.fileExists_unlink]
  · by_cases hstat : env.gfc_get_status task = GF_OK
    · simp [hrc, hstat, hex2, not_lt.1 hrc]
    · simp [hrc, hstat, FS.fileExists_unlink]

/-- C5: a client thread that holds a task passing the path-length check,
and whose `openFile` does not end the process, finishes the task; in the
file system it leaves, the destination does not exist when `gfc_perform`
returned a negative code, does not exist when the final status is not
`GF_OK` (whatever the return code), and exists only if (indeed exactly
when) the return code was non-negative and the status `GF_OK`. -/
theorem worker_removes_failed_download (env : ClientEnv) (w : Nat) (s : ClientState)
    (task : request_task_t) (fs1 : FS)
    (hw : s.threads.get? w = some (Pc.busy task))
    (hlen : pathTooLong task.path = false)
    (hopen : openFile env task.local_path s.fs = some fs1) :
    ∃ s', clientWorkerStep env w s = some s' ∧
      s'.threads.get? w = some Pc.idle ∧
      ((env.gfc_perform task).2 < 0 → s'.fs.fileExists task.local_path = false) ∧
      (env.gfc_get_status task ≠ GF_OK → s'.fs.fileExists task.local_path = false) ∧
      (s'.fs.fileExists task.local_path = true ↔
        0 ≤ (env.gfc_perform task).2 ∧ env.gfc_get_status task = GF_OK) := by
  obtain ⟨fs', hdl, hiff⟩ := download_spec env task s.fs fs1 hopen
  have hlt : w < s.threads.length := by
    rcases Nat.lt_or_ge w s.threads.length with h | h
    · exact h
    · rw [List.get?_eq_none.2 h] at hw
      cases hw
  refine ⟨_, by simp only [clientWorkerStep, hw, hlen, hdl]; rfl, ?_, ?_, ?_, hiff⟩
  · simp [List.getElem?_set, hlt]
  · intro hrc
    by_contra hex
    have := (hiff.1 (by simpa using hex)).1
    omega
  · intro hst
    by_contra hex
    exact hst (hiff.1 (by simpa using hex)).2

/-- Witness for C5: a healthy download of `/a` leaves its file in place. -/
theorem worker_removes_failed_download_witness :
    holdingClient.threads.get? 0 = some (Pc.busy taskA) ∧
    pathTooLong taskA.path = false ∧
    ∃ s', clientWorkerStep okClientEnv 0 holdingClient = some s' ∧
      s'.threads.get? 0 = some Pc.idle ∧
      ((okClientEnv.gfc_perform taskA).2 < 0 → s'.fs.fileExists taskA.local_path = false) ∧
      (okClientEnv.gfc_get_status taskA ≠ GF_OK → s'.fs.fileExists taskA.local_path = false) ∧
      (s'.fs.fileExists taskA.local_path = true ↔
        0 ≤ (okClientEnv.gfc_perform taskA).2 ∧ okClientEnv.gfc_get_status taskA = GF_OK) :=
  ⟨rfl, by decide, worker_removes_failed_download okClientEnv 0 holdingClient taskA
    (FS.fopen_w { files := [] } taskA.local_path) rfl (by decide) (by decide)⟩

set_option maxRecDepth 100000 in
theorem stuckClient_reached :
    clientRun longPathEnv [] 0
        [ClientAction.produce, ClientAction.worker 0, ClientAction.worker 0]
        (clientInit 1 1 { files := [] }) = some stuckClient := by
  decide

theorem stuckClient_blocked (server : Path) (port : Nat) :
    ∀ n : Nat, clientRun longPathEnv server port (List.replicate n (ClientAction.worker 0))
      stuckClient = some stuckClient
  | 0 => rfl
  | n + 1 => by
    rw [List.replicate_succ, clientRun]
    have h : clientStep longPathEnv server port (ClientAction.worker 0) stuckClient =
        some stuckClient := rfl
    rw [h]
    exact stuckClient_blocked server port n

/-- C4 fails on the code: one thread, one request whose path has 513
characters.  The task is enqueued, dequeued and rejected by the test of
line 111, whose `continue` skips the increment of line 154: every task has
been processed and the queue is empty, but `ncompleted` is 0, not 1, `stop`
is clear, and the thread stays blocked whatever number of further steps it
is given (so `main` never gets past `pthread_join`). -/
theorem rejected_task_is_not_counted :
    clientRun longPathEnv [] 0
        [ClientAction.produce, ClientAction.worker 0, ClientAction.worker 0]
        (clientInit 1 1 { files := [] }) = some stuckClient ∧
    stuckClient.allProcessed = true ∧
    stuckClient.q = [] ∧
    stuckClient.nrequests = 1 ∧
    stuckClient.ncompleted = 0 ∧
    stuckClient.stop = false ∧
    ∀ n : Nat, clientRun longPathEnv [] 0 (List.replicate n (ClientAction.worker 0))
      stuckClient = some stuckClient := by
  exact ⟨stuckClient_reached, by decide, rfl, rfl, rfl, rfl, stuckClient_blocked [] 0⟩

/-! ## The server -/

theorem busyReqs_set_busy {α : Type} (r : α) :
    ∀ (ws : List (Pc α)) (w : Nat), ws.get? w = some Pc.idle →
      List.Perm (busyReqs (ws.set w (Pc.busy r))) (r :: busyReqs ws)
  | [], w, h => by simp at h
  | pc :: ws, 0, h => by
    simp only [List.get?_cons_zero, Option.some.injEq] at h
    subst h
    simp [busyReqs]
  | pc :: ws, w + 1, h => by
    have ih := busyReqs_set_busy r ws w (by simpa using h)
    cases pc with
    | idle => simpa [busyReqs] using ih
    | exited => simpa [busyReqs] using ih
    | busy r' =>
      simp only [List.set_cons_succ, busyReqs]
      exact (List.Perm.cons r' ih).trans (List.Perm.swap r r' _)

theorem busyReqs_set_idle {α : Type} (r : α) :
    ∀ (ws : List (Pc α)) (w : Nat), ws.get? w = some (Pc.busy r) →
      List.Perm (r :: busyReqs (ws.set w Pc.idle)) (busyReqs ws)
  | [], w, h => by simp at h
  | pc :: ws, 0, h => by
    simp only [List.get?_cons_zero, Option.some.injEq] at h
    subst h
    simp [busyReqs]
  | pc :: ws, w + 1, h => by
    have ih := busyReqs_set_idle r ws w (by simpa using h)
    cases pc with
    | idle => simpa [busyReqs] using ih
    | exited => simpa [busyReqs] using ih
    | busy r' =>
      simp only [List.set_cons_succ, busyReqs]
      exact (List.Perm.swap r' r _).trans (List.Perm.cons r' ih)

theorem busyReqs_set_exited {α : Type} :
    ∀ (ws : List (Pc α)) (w : Nat), ws.get? w = some Pc.idle →
      busyReqs (ws.set w Pc.exited) = busyReqs ws
  | [], w, h => by simp at h
  | pc :: ws, 0, h => by
    simp only [List.get?_cons_zero, Option.some.injEq] at h
    subst h
    simp [busyReqs]
  | pc :: ws, w + 1, h => by
    have ih := busyReqs_set_exited ws w (by simpa using h)
    cases pc <;> simp [busyReqs, ih]

theorem servedReqs_append : ∀ (a b : List SrvEvent),
    servedReqs (a ++ b) = servedReqs a ++ servedReqs b
  | [], b => rfl
  | e :: a, b => by
    cases e <;> simp [servedReqs, servedReqs_append a b]

theorem servedReqs_serveRequest (r : steque_request) (h : r.ctx_slot ≠ none) :
    servedReqs (serveRequest r) = [r] := by
  cases r with
  | mk filepath ctx ctx_slot =>
    cases ctx_slot with
    | none => exact absurd rfl h
    | some slot => rfl

theorem serveRequest_no_abort (r : steque_request) : ∀ e ∈ serveRequest r, e.isAbort = false := by
  intro e he
  unfold serveRequest at he
  cases hslot : r.ctx_slot with
  | none => simp [hslot] at he
  | some slot =>
    simp only [hslot, List.mem_singleton] at he
    subst he
    rfl

/-- One step of a thread during the join keeps `Joining`, appends only
`serve_file` calls to the log, and moves requests from the queue to a
thread and from a thread to the served ones, losing none. -/
theorem serverWorkerStep_joining (w : Nat) (s : ServerState) (hJ : Joining s) :
    Joining (serverWorkerStep w s) ∧
    ∃ new, (serverWorkerStep w s).log = s.log ++ new ∧ (∀ e ∈ new, e.isAbort = false) ∧
      List.Perm (servedReqs new ++
        (busyReqs (serverWorkerStep w s).workers ++ (serverWorkerStep w s).queue))
        (busyReqs s.workers ++ s.queue) := by
  obtain ⟨hstop, hexit, hslot⟩ := hJ
  have hsame : Joining s ∧ ∃ new, s.log = s.log ++ new ∧ (∀ e ∈ new, e.isAbort = false) ∧
      List.Perm (servedReqs new ++ (busyReqs s.workers ++ s.queue))
        (busyReqs s.workers ++ s.queue) :=
    ⟨⟨hstop, hexit, hslot⟩, [], by simp, by simp, by simp [servedReqs]⟩
  unfold serverWorkerStep
  cases hw : s.workers.get? w with
  | none => simpa using hsame
  | some pc =>
    cases pc with
    | exited => simpa using hsame
    | idle =>
      cases hq : s.queue with
      | nil =>
        simp only [hstop, if_true]
        refine ⟨⟨rfl, fun _ => rfl, ?_⟩, [], by simp, by simp, ?_⟩
        · simpa [busyReqs_set_exited _ _ hw, hq] using hslot
        · simp [servedReqs, busyReqs_set_exited _ _ hw, hq]
      | cons r rest =>
        have hperm := busyReqs_set_busy r s.workers w hw
        have hp2 : List.Perm (busyReqs (s.workers.set w (Pc.busy r)) ++ rest)
            (busyReqs s.workers ++ r :: rest) :=
          (List.Perm.append_right rest hperm).trans (by
            simpa using (@List.perm_middle _ r (busyReqs s.workers) rest).symm)
        refine ⟨⟨hstop, ?_, ?_⟩, [], by simp, by simp, by simpa [servedReqs] using hp2⟩
        · intro hmem
          have hmem' : Pc.exited ∈ s.workers := by
            rcases List.mem_or_eq_of_mem_set hmem with h | h
            · exact h
            · cases h
          have := hexit hmem'
          rw [hq] at this
          cases this
        · intro r' hr'
          apply hslot r'
          rw [hq]
          exact hp2.subset hr'
    | busy r =>
      have hperm := busyReqs_set_idle r s.workers w hw
      have hr : r.ctx_slot ≠ none :=
        hslot r (List.mem_append_left _ (hperm.subset (List.mem_cons_self _ _)))
      have hp2 : List.Perm (r :: (busyReqs (s.workers.set w Pc.idle) ++ s.queue))
          (busyReqs s.workers ++ s.queue) :=
        List.Perm.append_right s.queue hperm
      refine ⟨⟨hstop, ?_, ?_⟩, serveRequest r, rfl, serveRequest_no_abort r, ?_⟩
      · intro hmem
        apply hexit
        rcases List.mem_or_eq_of_mem_set hmem with h | h
        · exact h
        · cases h
      · intro r' hr'
        exact hslot r' (hp2.subset (List.mem_cons_of_mem _ hr'))
      · rw [servedReqs_serveRequest r hr]
        exact hp2

theorem runWorkers_joining : ∀ (sched : List Nat) (s : ServerState), Joining s →
    Joining (runWorkers sched s) ∧
    ∃ new, (runWorkers sched s).log = s.log ++ new ∧ (∀ e ∈ new, e.isAbort = false) ∧
      List.Perm (servedReqs new ++
        (busyReqs (runWorkers sched s).workers ++ (runWorkers sched s).queue))
        (busyReqs s.workers ++ s.queue)
  | [], s, hJ => ⟨hJ, [], by simp [runWorkers], by simp, by simp [runWorkers, servedReqs]⟩
  | w :: rest, s, hJ => by
    obtain ⟨hJ1, new1, hlog1, hab1, hperm1⟩ := serverWorkerStep_joining w s hJ
    obtain ⟨hJ2, new2, hlog2, hab2, hperm2⟩ := runWorkers_joining rest (serverWorkerStep w s) hJ1
    refine ⟨hJ2, new1 ++ new2, ?_, ?_, ?_⟩
    · rw [runWorkers, hlog2, hlog1, List.append_assoc]
    · intro e he
      rcases List.mem_append.1 he with h | h
      · exact hab1 e h
      · exact hab2 e h
    · rw [runWorkers, servedReqs_append, List.append_assoc]
      exact (List.Perm.append_left (servedReqs new1) hperm2).trans hperm1

theorem busyReqs_of_allExited : ∀ (ws : List (Pc steque_request)), allExited ws = true →
    busyReqs ws = []
  | [], _ => rfl
  | pc :: ws, h => by
    simp only [allExited, List.all_cons, Bool.and_eq_true, decide_eq_true_eq] at h
    obtain ⟨h1, h2⟩ := h
    subst h1
    simpa [busyReqs] using busyReqs_of_allExited ws (by simpa [allExited] using h2)

theorem exited_mem_of_allExited : ∀ (ws : List (Pc steque_request)), ws ≠ [] →
    allExited ws = true → Pc.exited ∈ ws
  | [], h, _ => absurd rfl h
  | pc :: ws, _, h => by
    simp only [allExited, List.all_cons, Bool.and_eq_true, decide_eq_true_eq] at h
    rw [h.1]
    exact List.mem_cons_self _ _

theorem serverWorkerStep_length (w : Nat) (s : ServerState) :
    (serverWorkerStep w s).workers.length = s.workers.length := by
  unfold serverWorkerStep
  cases s.workers.get? w with
  | none => rfl
  | some pc =>
    cases pc with
    | exited => rfl
    | busy r => simp
    | idle =>
      cases s.queue with
      | nil => simp only; split_ifs <;> simp
      | cons r rest => simp

theorem runWorkers_length : ∀ (sched : List Nat) (s : ServerState),
    (runWorkers sched s).workers.length = s.workers.length
  | [], s => rfl
  | w :: rest, s => by
    rw [runWorkers, runWorkers_length rest, serverWorkerStep_length]

theorem serverWorkerStep_exited_stable (w i : Nat) (s : ServerState)
    (h : s.workers.get? i = some Pc.exited) :
    (serverWorkerStep w s).workers.get? i = some Pc.exited := by
  unfold serverWorkerStep
  cases hw : s.workers.get? w with
  | none => simpa using h
  | some pc =>
    have hne : pc ≠ Pc.exited → w ≠ i := by
      intro hpc hwi
      subst hwi
      rw [hw] at h
      exact hpc (Option.some.inj h)
    cases pc with
    | exited => simpa using h
    | busy r =>
      have := hne (by simp)
      simp only [List.get?_eq_getElem?] at h ⊢
      rw [List.getElem?_set_ne this]
      exact h
    | idle =>
      have := hne (by simp)
      simp only [List.get?_eq_getElem?] at h ⊢
      cases s.queue with
      | nil =>
        simp only
        split_ifs
        · simp only
          rw [List.getElem?_set_ne this]
          exact h
        · exact h
      | cons r rest =>
        simp only
        rw [List.getElem?_set_ne this]
        exact h

theorem runWorkers_exited_stable (i : Nat) : ∀ (sched : List Nat) (s : ServerState),
    s.workers.get? i = some Pc.exited → (runWorkers sched s).workers.get? i = some Pc.exited
  | [], s, h => h
  | w :: rest, s, h => by
    rw [runWorkers]
    exact runWorkers_exited_stable i rest _ (serverWorkerStep_exited_stable w i s h)

theorem serverWorkerStep_stopping (w : Nat) (s : ServerState) :
    (serverWorkerStep w s).stopping = s.stopping ∧
    (serverWorkerStep w s).queue.length ≤ s.queue.length := by
  unfold serverWorkerStep
  cases s.workers.get? w with
  | none => simp
  | some pc =>
    cases pc with
    | exited => simp
    | busy r => simp
    | idle =>
      cases hq : s.queue with
      | nil => simp only; split_ifs <;> simp [hq]
      | cons r rest => simp

theorem runWorkers_stopping : ∀ (sched : List Nat) (s : ServerState),
    (runWorkers sched s).stopping = s.stopping ∧
    (runWorkers sched s).queue.length ≤ s.queue.length
  | [], s => ⟨rfl, le_refl _⟩
  | w :: rest, s => by
    obtain ⟨h1, h2⟩ := serverWorkerStep_stopping w s
    obtain ⟨h3, h4⟩ := runWorkers_stopping rest (serverWorkerStep w s)
    rw [runWorkers]
    exact ⟨h3.trans h1, le_trans h4 h2⟩

theorem runWorkers_append : ∀ (a b : List Nat) (s : ServerState),
    runWorkers (a ++ b) s = runWorkers b (runWorkers a s)
  | [], b, s => rfl
  | w :: a, b, s => by
    rw [List.cons_append, runWorkers, runWorkers, runWorkers_append a b]

/-- Left alone with `stopping` set, a thread returns within `stepsNeeded` steps. -/
theorem runWorkers_replicate_exits (w : Nat) : ∀ (m : Nat) (s : ServerState),
    s.stopping = true → w < s.workers.length → stepsNeeded w s ≤ m →
    (runWorkers (List.replicate m w) s).workers.get? w = some Pc.exited := by
  intro m
  induction m with
  | zero =>
    intro s _ hw hneed
    unfold stepsNeeded at hneed
    have hsome : s.workers.get? w = some (s.workers.get ⟨w, hw⟩) := List.get?_eq_get hw
    cases hpc : s.workers.get ⟨w, hw⟩ with
    | idle => rw [hsome, hpc] at hneed; simp at hneed
    | busy r => rw [hsome, hpc] at hneed; simp at hneed
    | exited =>
      show s.workers.get? w = some Pc.exited
      rw [hsome, hpc]
  | succ m ih =>
    intro s hstop hw hneed
    rw [List.replicate_succ, runWorkers]
    have hsome : s.workers.get? w = some (s.workers.get ⟨w, hw⟩) := List.get?_eq_get hw
    have hlen := serverWorkerStep_length w s
    have hst := (serverWorkerStep_stopping w s).1
    cases hpc : s.workers.get ⟨w, hw⟩ with
    | exited =>
      rw [hpc] at hsome
      exact runWorkers_exited_stable w _ _ (serverWorkerStep_exited_stable w w s hsome)
    | busy r =>
      rw [hpc] at hsome
      apply ih _ (hst.trans hstop) (by omega)
      have hneed' : 2 * s.queue.length + 2 ≤ m + 1 := by
        unfold stepsNeeded at hneed
        rw [hsome] at hneed
        exact hneed
      have hstep : serverWorkerStep w s =
          { s with log := s.log ++ serveRequest r, workers := s.workers.set w Pc.idle } := by
        simp only [serverWorkerStep, hsome]
      rw [hstep]
      simp only [stepsNeeded, List.get?_eq_getElem?, List.getElem?_set_eq_of_lt _ hw]
      omega
    | idle =>
      rw [hpc] at hsome
      have hneed' : 2 * s.queue.length + 1 ≤ m + 1 := by
        unfold stepsNeeded at hneed
        rw [hsome] at hneed
        exact hneed
      cases hq : s.queue with
      | nil =>
        have hstep : serverWorkerStep w s = { s with workers := s.workers.set w Pc.exited } := by
          simp only [serverWorkerStep, hsome, hq, hstop, if_true]
        apply runWorkers_exited_stable
        rw [hstep]
        simp only [List.get?_eq_getElem?, List.getElem?_set_eq_of_lt _ hw]
      | cons r rest =>
        have hstep : serverWorkerStep w s =
            { s with queue := rest, workers := s.workers.set w (Pc.busy r) } := by
          simp only [serverWorkerStep, hsome, hq]
        apply ih _ (hst.trans hstop) (by omega)
        rw [hstep]
        simp only [stepsNeeded, List.get?_eq_getElem?, List.getElem?_set_eq_of_lt _ hw]
        rw [hq] at hneed'
        simp only [List.length_cons] at hneed'
        omega

theorem stepsNeeded_le (w : Nat) (s : ServerState) : stepsNeeded w s ≤ 2 * s.queue.length + 2 := by
  unfold stepsNeeded
  cases s.workers.get? w with
  | none => simp
  | some pc => cases pc <;> simp

/-- Under `turnSchedule` the first `n` threads have all returned. -/
theorem runWorkers_turnSchedule (m : Nat) : ∀ (n : Nat) (s : ServerState),
    s.stopping = true → n ≤ s.workers.length → 2 * s.queue.length + 2 ≤ m →
    ∀ i < n, (runWorkers (turnSchedule n m) s).workers.get? i = some Pc.exited := by
  intro n
  induction n with
  | zero => intro s _ _ _ i hi; omega
  | succ n ih =>
    intro s hstop hn hm i hi
    rw [turnSchedule, runWorkers_append]
    have h1 := runWorkers_stopping (turnSchedule n m) s
    have h2 := runWorkers_length (turnSchedule n m) s
    rcases Nat.lt_or_ge i n with hlt | hge
    · exact runWorkers_exited_stable i _ _ (ih s hstop (by omega) hm i hlt)
    · have hin : i = n := by omega
      subst hin
      exact runWorkers_replicate_exits i m _ (h1.1.trans hstop) (by omega)
        (le_trans (stepsNeeded_le i _) (by omega))

theorem allExited_of_get (ws : List (Pc steque_request))
    (h : ∀ i < ws.length, ws.get? i = some Pc.exited) : allExited ws = true := by
  unfold allExited
  rw [List.all_eq_true]
  intro x hx
  obtain ⟨i, hi⟩ := List.mem_iff_get?.1 hx
  have hlt : i < ws.length := by
    rcases Nat.lt_or_ge i ws.length with h' | h'
    · exact h'
    · rw [List.get?_eq_none.2 h'] at hi
      cases hi
  rw [h i hlt] at hi
  simpa using (Option.some.inj hi).symm

theorem turnSchedule_count (m : Nat) : ∀ (n w : Nat), w < n → m ≤ (turnSchedule n m).count w
  | 0, w, h => by omega
  | n + 1, w, h => by
    rw [turnSchedule, List.count_append]
    rcases Nat.lt_or_ge w n with hlt | hge
    · exact le_trans (turnSchedule_count m n w hlt) (Nat.le_add_right _ _)
    · have hw : w = n := by omega
      subst hw
      rw [List.count_replicate_self]
      exact Nat.le_add_left _ _

/-- The join of `cleanup_threads` returns under the schedule that gives
every thread `2 * k + 2` steps in turn, `k` being the length of the queue. -/
theorem cleanup_threads_returns (s : ServerState) :
    (cleanup_threads (turnSchedule s.workers.length (2 * s.queue.length + 2)) s).isSome = true := by
  unfold cleanup_threads
  simp only
  split_ifs with hws
  · rfl
  · rfl
  · rename_i hne
    exfalso
    apply hne
    apply allExited_of_get
    intro i hi
    rw [runWorkers_length] at hi
    exact runWorkers_turnSchedule _ _ _ rfl (le_refl _) (le_refl _) i hi

theorem serverWorkerStep_other (v w : Nat) (s : ServerState) (h : v ≠ w) :
    (serverWorkerStep v s).workers.get? w = s.workers.get? w := by
  unfold serverWorkerStep
  cases hv : s.workers.get? v with
  | none => rfl
  | some pc =>
    cases pc with
    | exited => rfl
    | busy r =>
      simp only [List.get?_eq_getElem?]
      exact List.getElem?_set_ne h
    | idle =>
      cases s.queue with
      | nil =>
        simp only
        split_ifs
        · simp only [List.get?_eq_getElem?]
          exact List.getElem?_set_ne h
        · rfl
      | cons r rest =>
        simp only [List.get?_eq_getElem?]
        exact List.getElem?_set_ne h

theorem stepsNeeded_step_other (v w : Nat) (s : ServerState) (h : v ≠ w) :
    stepsNeeded w (serverWorkerStep v s) ≤ stepsNeeded w s := by
  have hq := (serverWorkerStep_stopping v s).2
  unfold stepsNeeded
  rw [serverWorkerStep_other v w s h]
  cases s.workers.get? w with
  | none => exact le_refl _
  | some pc =>
    cases pc with
    | exited => exact le_refl _
    | idle => simp only; omega
    | busy r => simp only; omega

theorem lt_length_of_get {α : Type} {l : List α} {i : Nat} {x : α} (h : l.get? i = some x) :
    i < l.length := by
  rcases Nat.lt_or_ge i l.length with h' | h'
  · exact h'
  · rw [List.get?_eq_none.2 h'] at h
    cases h

theorem stepsNeeded_step_self (w : Nat) (s : ServerState) (hstop : s.stopping = true) :
    stepsNeeded w (serverWorkerStep w s) ≤ stepsNeeded w s - 1 := by
  cases hw : s.workers.get? w with
  | none =>
    have hstep : serverWorkerStep w s = s := by simp only [serverWorkerStep, hw]
    have h0 : stepsNeeded w s = 0 := by
      unfold stepsNeeded
      rw [hw]
    rw [hstep, h0]
  | some pc =>
    have hlt := lt_length_of_get hw
    cases pc with
    | exited =>
      have hstep : serverWorkerStep w s = s := by simp only [serverWorkerStep, hw]
      have h0 : stepsNeeded w s = 0 := by
        unfold stepsNeeded
        rw [hw]
      rw [hstep, h0]
    | busy r =>
      have hstep : serverWorkerStep w s =
          { s with log := s.log ++ serveRequest r, workers := s.workers.set w Pc.idle } := by
        simp only [serverWorkerStep, hw]
      have h0 : stepsNeeded w s = 2 * s.queue.length + 2 := by
        unfold stepsNeeded
        rw [hw]
      have h1 : stepsNeeded w
          { s with log := s.log ++ serveRequest r, workers := s.workers.set w Pc.idle } =
          2 * s.queue.length + 1 := by
        simp only [stepsNeeded, List.get?_eq_getElem?, List.getElem?_set_eq_of_lt _ hlt]
      rw [hstep, h0, h1]
      omega
    | idle =>
      have h0 : stepsNeeded w s = 2 * s.queue.length + 1 := by
        unfold stepsNeeded
        rw [hw]
      cases hq : s.queue with
      | nil =>
        have hstep : serverWorkerStep w s = { s with workers := s.workers.set w Pc.exited } := by
          simp only [serverWorkerStep, hw, hq, hstop, if_true]
        have h1 : stepsNeeded w { s with workers := s.workers.set w Pc.exited } = 0 := by
          simp only [stepsNeeded, List.get?_eq_getElem?, List.getElem?_set_eq_of_lt _ hlt]
        rw [hstep, h1]
        exact Nat.zero_le _
      | cons r rest =>
        have hstep : serverWorkerStep w s =
            { s with queue := rest, workers := s.workers.set w (Pc.busy r) } := by
          simp only [serverWorkerStep, hw, hq]
        have h1 : stepsNeeded w { s with queue := rest, workers := s.workers.set w (Pc.busy r) } =
            2 * rest.length + 2 := by
          simp only [stepsNeeded, List.get?_eq_getElem?, List.getElem?_set_eq_of_lt _ hlt]
        rw [hstep, h0, h1, hq, List.length_cons]
        omega

/-- Under any interleaving with the other threads, once `stopping` is set a
thread that is given at least `stepsNeeded` steps has returned. -/
theorem runWorkers_fair_exits (w : Nat) : ∀ (sched : List Nat) (s : ServerState),
    s.stopping = true → w < s.workers.length → stepsNeeded w s ≤ sched.count w →
    (runWorkers sched s).workers.get? w = some Pc.exited
  | [], s, _, hw, hneed => by
    have hsome : s.workers.get? w = some (s.workers.get ⟨w, hw⟩) := List.get?_eq_get hw
    simp only [List.count_nil, Nat.le_zero_eq] at hneed
    unfold stepsNeeded at hneed
    show s.workers.get? w = some Pc.exited
    cases hpc : s.workers.get ⟨w, hw⟩ with
    | idle => rw [hsome, hpc] at hneed; simp at hneed
    | busy r => rw [hsome, hpc] at hneed; simp at hneed
    | exited => rw [hsome, hpc]
  | v :: rest, s, hstop, hw, hneed => by
    rw [runWorkers]
    have hst := (serverWorkerStep_stopping v s).1
    have hlen := serverWorkerStep_length v s
    apply runWorkers_fair_exits w rest _ (hst.trans hstop) (by omega)
    by_cases hvw : v = w
    · subst hvw
      have h1 := stepsNeeded_step_self v s hstop
      simp only [List.count_cons_self] at hneed
      omega
    · have h1 := stepsNeeded_step_other v w s hvw
      rw [List.count_cons_of_ne (fun h => hvw h.symm)] at hneed
      omega

/-- The join of `cleanup_threads` returns under every schedule that gives
each thread at least `2 * k + 2` steps, `k` being the length of the queue,
however the steps of the threads are interleaved. -/
theorem cleanup_threads_returns_fair (s : ServerState) (sched : List Nat)
    (hfair : ∀ w < s.workers.length, 2 * s.queue.length + 2 ≤ sched.count w) :
    (cleanup_threads sched s).isSome = true := by
  unfold cleanup_threads
  simp only
  split_ifs with hws
  · rfl
  · rfl
  · rename_i hne
    exfalso
    apply hne
    apply allExited_of_get
    intro i hi
    rw [runWorkers_length] at hi
    exact runWorkers_fair_exits i sched _ rfl hi
      (le_trans (stepsNeeded_le i _) (hfair i hi))

/-- Without worker threads (`workers == NULL`, as after a failed
`pthread_create`) the drain loop of `cleanup_threads` aborts every queued
handle once and serves none. -/
theorem cleanup_threads_without_workers (sched : List Nat) (s : ServerState)
    (hws : s.workers = []) :
    cleanup_threads sched s =
      some { s with stopping := true, log := s.log ++ drainAborts s.queue, queue := [],
                    destroyed := true } := by
  unfold cleanup_threads
  simp [hws]

/-- C6 fails as stated: one worker thread, one request queued.
`cleanup_threads` sets `stopping`; the thread, which returns only once the
queue is empty, pops the request and calls `serve_file` on it; the drain
loop finds the queue empty, so the handle receives no `gfs_abort`. -/
theorem queued_request_is_served_after_stopping :
    oneQueued.stopping = false ∧
    oneQueued.workers = [Pc.idle] ∧
    oneQueued.queue = [{ filepath := ['/', 'a'], ctx := 42, ctx_slot := some 7 }] ∧
    cleanup_threads [0, 0, 0] oneQueued =
      some { queue := [], stopping := true, workers := [],
             log := [SrvEvent.serve_file 7 42 ['/', 'a']], destroyed := true } := by
  decide

/-- C6 (as amended): let `cleanup_threads` be called in a state with at
least one worker thread, none of which has returned, the queued requests
and those held by threads having a non-`NULL` `ctx_slot`, and let `k` be
the number of queued requests.  Then `cleanup_threads` returns under every
schedule that gives each worker thread at least `2 * k + 2` steps, however
interleaved (such schedules exist); and whenever it returns, under any
schedule: the calls made since its start contain no `gfs_abort`, and the
requests passed to `serve_file` since its start are exactly (each as many
times as it occurs) the requests that were queued or held by a thread.  So
every queued request is dequeued and served by a worker after `stopping` is
set, none is aborted by the drain loop, and the queue is destroyed. -/
theorem cleanup_threads_serves_queued (s : ServerState)
    (hworkers : s.workers ≠ [])
    (hlive : Pc.exited ∉ s.workers)
    (hslot : ∀ r ∈ busyReqs s.workers ++ s.queue, r.ctx_slot ≠ none) :
    (∀ sched : List Nat,
      (∀ w < s.workers.length, 2 * s.queue.length + 2 ≤ sched.count w) →
      (cleanup_threads sched s).isSome = true) ∧
    (∃ sched : List Nat,
      (∀ w < s.workers.length, 2 * s.queue.length + 2 ≤ sched.count w) ∧
      (cleanup_threads sched s).isSome = true) ∧
    ∀ sched s', cleanup_threads sched s = some s' →
      ∃ new, s'.log = s.log ++ new ∧
        (∀ e ∈ new, e.isAbort = false) ∧
        List.Perm (servedReqs new) (busyReqs s.workers ++ s.queue) ∧
        s'.queue = [] ∧ s'.destroyed = true := by
  refine ⟨cleanup_threads_returns_fair s,
    ⟨turnSchedule s.workers.length (2 * s.queue.length + 2),
      turnSchedule_count _ _, cleanup_threads_returns s⟩, ?_⟩
  intro sched s' hrun
  have hJ : Joining { s with stopping := true } := ⟨rfl, fun h => absurd h hlive, hslot⟩
  obtain ⟨hJ2, new, hlog, hab, hperm⟩ := runWorkers_joining sched _ hJ
  unfold cleanup_threads at hrun
  simp only [if_neg hworkers] at hrun
  split_ifs at hrun with hall
  simp only [Option.some.injEq] at hrun
  have hlen := runWorkers_length sched { s with stopping := true }
  have hne : (runWorkers sched { s with stopping := true }).workers ≠ [] := by
    intro h
    rw [h] at hlen
    exact hworkers (List.length_eq_zero.1 hlen.symm)
  have hq : (runWorkers sched { s with stopping := true }).queue = [] :=
    hJ2.2.1 (exited_mem_of_allExited _ hne hall)
  have hb := busyReqs_of_allExited _ hall
  rw [hb, hq] at hperm
  subst hrun
  refine ⟨new, ?_, hab, by simpa using hperm, rfl, rfl⟩
  simp only [hq, drainAborts, List.append_nil]
  exact hlog

/-- Witness for C6 (as amended): one worker thread, one request queued. -/
theorem cleanup_threads_serves_queued_witness :
    oneQueued.workers ≠ [] ∧ Pc.exited ∉ oneQueued.workers ∧
    (∀ r ∈ busyReqs oneQueued.workers ++ oneQueued.queue, r.ctx_slot ≠ none) ∧
    (∀ sched : List Nat,
      (∀ w < oneQueued.workers.length, 2 * oneQueued.queue.length + 2 ≤ sched.count w) →
      (cleanup_threads sched oneQueued).isSome = true) ∧
    (∃ sched : List Nat,
      (∀ w < oneQueued.workers.length, 2 * oneQueued.queue.length + 2 ≤ sched.count w) ∧
      (cleanup_threads sched oneQueued).isSome = true) ∧
    ∀ sched s', cleanup_threads sched oneQueued = some s' →
      ∃ new, s'.log = oneQueued.log ++ new ∧
        (∀ e ∈ new, e.isAbort = false) ∧
        List.Perm (servedReqs new) (busyReqs oneQueued.workers ++ oneQueued.queue) ∧
        s'.queue = [] ∧ s'.destroyed = true :=
  ⟨by decide, by decide, by decide,
    cleanup_threads_serves_queued oneQueued (by decide) (by decide) (by decide)⟩

/-! ## The client: accounting of completed tasks -/

theorem fmt06d_length_ge (c : Nat) : 6 ≤ (fmt06d c).length := by
  unfold fmt06d
  rw [List.length_append, List.length_replicate]
  omega

/-- A request path of 514 characters or more makes `sprintf` write past the
field `server`: the producer step is undefined. -/
theorem storedLocalPath_undefined (env : ClientEnv) (req_path : Path) (c : Nat)
    (hn : 514 ≤ req_path.length) : storedLocalPath env req_path c = none := by
  have h6 := fmt06d_length_ge c
  have hlen : 520 < (localPath req_path c).1.length := by
    simp only [localPath, localPathStr, List.length_append, List.length_cons, List.length_drop,
      List.length_nil]
    omega
  unfold storedLocalPath PATH_BUFFER_SIZE SERVER_FIELD_SIZE
  rw [if_neg (by omega), if_neg (by omega)]

/-- A request path of at most 505 characters, with a counter below 1000000,
leaves in `local_path` the string `localPath` builds. -/
theorem storedLocalPath_fits (env : ClientEnv) (req_path : Path) (c : Nat)
    (hn : req_path.length ≤ 505) (hc : c < 1000000) :
    storedLocalPath env req_path c = some (localPathStr req_path c) := by
  have h6 := fmt06d_length hc
  have hlen : (localPath req_path c).1.length ≤ 512 := by
    simp only [localPath, localPathStr, List.length_append, List.length_cons, List.length_drop,
      List.length_nil, h6]
    omega
  unfold storedLocalPath PATH_BUFFER_SIZE
  rw [if_pos hlen]

theorem produce_inv (env : ClientEnv) (server : Path) (port : Nat) (s s' : ClientState)
    (h : ClientInv env s) (hp : produce env server port s = some s') : ClientInv env s' := by
  unfold produce at hp
  split_ifs at hp with hlt
  · cases hst : storedLocalPath env (env.workload_get_path s.produced) s.counter with
    | none => simp [hst] at hp
    | some stored =>
      simp only [hst, Option.some.injEq] at hp
      subst hp
      obtain ⟨h1, h2, h3⟩ := h
      refine ⟨?_, ?_, h3⟩
      · simp only [List.range_succ, List.map_append, List.countP_append, List.map_cons,
          List.map_nil, List.countP_cons, List.countP_nil, accepted, Nat.zero_add]
        split_ifs <;> push_cast <;> omega
      · simp only
        push_cast
        omega
  · simp only [Option.some.injEq] at hp
    subst hp
    exact h

theorem clientWorkerStep_inv (env : ClientEnv) (w : Nat) (s s' : ClientState)
    (h : ClientInv env s) (hstep : clientWorkerStep env w s = some s') : ClientInv env s' := by
  obtain ⟨h1, h2, h3⟩ := h
  unfold clientWorkerStep at hstep
  cases hw : s.threads.get? w with
  | none =>
    simp only [hw, Option.some.injEq] at hstep
    subst hstep
    exact ⟨h1, h2, h3⟩
  | some pc =>
    cases pc with
    | exited =>
      simp only [hw, Option.some.injEq] at hstep
      subst hstep
      exact ⟨h1, h2, h3⟩
    | idle =>
      cases hq : s.q with
      | nil =>
        simp only [hw, hq] at hstep
        split_ifs at hstep
        · simp only [Option.some.injEq] at hstep
          subst hstep
          refine ⟨?_, h2, h3⟩
          simp only [busyReqs_set_exited _ _ hw]
          rw [hq] at h1
          exact h1
        · simp only [Option.some.injEq] at hstep
          subst hstep
          exact ⟨h1, h2, h3⟩
      | cons t rest =>
        simp only [hw, hq, Option.some.injEq] at hstep
        subst hstep
        refine ⟨?_, h2, h3⟩
        have hperm := (busyReqs_set_busy t s.threads w hw).countP_eq accepted
        simp only [hperm]
        rw [hq] at h1
        simp only [List.countP_cons] at h1 ⊢
        rw [← h1]
        push_cast
        omega
    | busy t =>
      have hperm := (busyReqs_set_idle t s.threads w hw).countP_eq accepted
      simp only [List.countP_cons] at hperm
      by_cases hlong : pathTooLong t.path = true
      · simp only [hw, hlong, if_true, Option.some.injEq] at hstep
        subst hstep
        refine ⟨?_, h2, h3⟩
        simp only [accepted, hlong, Bool.not_true, Bool.false_eq_true, if_false, Nat.add_zero] at hperm
        simp only [hperm]
        exact h1
      · have hf : pathTooLong t.path = false := by simpa using hlong
        simp only [hw, hf, Bool.false_eq_true, if_false] at hstep
        cases hdl : download env t s.fs with
        | none => simp [hdl] at hstep
        | some fs' =>
          simp only [hdl, Option.some.injEq] at hstep
          subst hstep
          have hacc : accepted t = true := by simpa [accepted] using hlong
          simp only [hacc, if_true] at hperm
          refine ⟨?_, h2, ?_⟩
          · simp only
            rw [← h1, ← hperm]
            push_cast
            omega
          · simp only
            split_ifs with hge
            · simpa using hge
            · rw [h3]
              constructor
              · intro hold
                omega
              · intro hnew
                omega

theorem clientRun_inv (env : ClientEnv) (server : Path) (port : Nat) :
    ∀ (sched : List ClientAction) (s s' : ClientState), ClientInv env s →
      clientRun env server port sched s = some s' → ClientInv env s'
  | [], s, s', h, hrun => by
    simp only [clientRun, Option.some.injEq] at hrun
    subst hrun
    exact h
  | a :: rest, s, s', h, hrun => by
    rw [clientRun] at hrun
    cases hstep : clientStep env server port a s with
    | none => simp [hstep] at hrun
    | some s1 =>
      simp only [hstep] at hrun
      refine clientRun_inv env server port rest s1 s' ?_ hrun
      cases a with
      | produce => exact produce_inv env server port s s1 h hstep
      | worker w => exact clientWorkerStep_inv env w s s1 h hstep

theorem clientStep_nrequests (env : ClientEnv) (server : Path) (port : Nat) (a : ClientAction)
    (s s' : ClientState) (hstep : clientStep env server port a s = some s') :
    s'.nrequests = s.nrequests := by
  cases a with
  | produce =>
    simp only [clientStep, produce] at hstep
    split_ifs at hstep with hlt
    · cases hst : storedLocalPath env (env.workload_get_path s.produced) s.counter with
      | none => simp [hst] at hstep
      | some stored =>
        simp only [hst, Option.some.injEq] at hstep
        subst hstep
        rfl
    · simp only [Option.some.injEq] at hstep
      subst hstep
      rfl
  | worker w =>
    simp only [clientStep, clientWorkerStep] at hstep
    cases hw : s.threads.get? w with
    | none => simp only [hw, Option.some.injEq] at hstep; subst hstep; rfl
    | some pc =>
      cases pc with
      | exited => simp only [hw, Option.some.injEq] at hstep; subst hstep; rfl
      | idle =>
        cases hq : s.q with
        | nil =>
          simp only [hw, hq] at hstep
          split_ifs at hstep <;> (simp only [Option.some.injEq] at hstep; subst hstep; rfl)
        | cons t rest => simp only [hw, hq, Option.some.injEq] at hstep; subst hstep; rfl
      | busy t =>
        cases hlong : pathTooLong t.path with
        | true =>
          simp only [hw, hlong, if_true, Option.some.injEq] at hstep
          subst hstep
          rfl
        | false =>
          simp only [hw, hlong, Bool.false_eq_true, if_false] at hstep
          cases hdl : download env t s.fs with
          | none => simp [hdl] at hstep
          | some fs' =>
            simp only [hdl, Option.some.injEq] at hstep
            subst hstep
            rfl

theorem clientRun_nrequests (env : ClientEnv) (server : Path) (port : Nat) :
    ∀ (sched : List ClientAction) (s s' : ClientState),
      clientRun env server port sched s = some s' → s'.nrequests = s.nrequests
  | [], s, s', hrun => by
    simp only [clientRun, Option.some.injEq] at hrun
    subst hrun
    rfl
  | a :: rest, s, s', hrun => by
    rw [clientRun] at hrun
    cases hstep : clientStep env server port a s with
    | none => simp [hstep] at hrun
    | some s1 =>
      simp only [hstep] at hrun
      rw [clientRun_nrequests env server port rest s1 s' hrun,
        clientStep_nrequests env server port a s s1 hstep]

theorem busyReqs_of_none_busy {α : Type} : ∀ (ws : List (Pc α)),
    ws.all Pc.notBusy = true → busyReqs ws = []
  | [], _ => rfl
  | pc :: ws, h => by
    simp only [List.all_cons, Bool.and_eq_true] at h
    cases pc with
    | idle => simpa [busyReqs] using busyReqs_of_none_busy ws h.2
    | exited => simpa [busyReqs] using busyReqs_of_none_busy ws h.2
    | busy r => simp [Pc.notBusy] at h

theorem busyReqs_replicate_idle {α : Type} : ∀ n : Nat,
    busyReqs (List.replicate n (Pc.idle : Pc α)) = []
  | 0 => rfl
  | n + 1 => by
    rw [List.replicate_succ]
    exact busyReqs_replicate_idle n

/-- What the client counts: on every run of `nthreads` threads over
`N >= 1` requests that ends neither in `exit` nor in the undefined
behaviour of an oversized `sprintf`, once every task was dequeued
and processed `ncompleted` equals the number of requests whose path passes
the length test of line 111, and `stop` is set exactly when that number is
`N`, that is when no path was rejected. -/
theorem client_counts_accepted (env : ClientEnv) (server : Path) (port : Nat)
    (nthreads N : Nat) (fs : FS) (sched : List ClientAction) (s : ClientState)
    (hN : 1 ≤ N)
    (hrun : clientRun env server port sched (clientInit nthreads N fs) = some s)
    (hdone : s.allProcessed = true) :
    s.ncompleted = ((((List.range N).map env.workload_get_path).countP
      (fun p => !pathTooLong p) : Nat) : Int) ∧
    s.q = [] ∧
    (s.stop = true ↔ ((List.range N).map env.workload_get_path).countP
      (fun p => !pathTooLong p) = N) := by
  have hinit : ClientInv env (clientInit nthreads N fs) := by
    refine ⟨?_, ?_, ?_⟩
    · simp [clientInit, busyReqs_replicate_idle]
    · simp [clientInit]
    · simp only [clientInit]
      constructor
      · intro h; cases h
      · intro h
        have : ((N : Nat) : Int) ≤ 0 := h
        omega
  obtain ⟨h1, h2, h3⟩ := clientRun_inv env server port sched _ s hinit hrun
  have hn : s.nrequests = (N : Int) := clientRun_nrequests env server port sched _ s hrun
  simp only [ClientState.allProcessed, Bool.and_eq_true, decide_eq_true_eq,
    List.isEmpty_iff] at hdone
  obtain ⟨⟨hp, hq⟩, hb⟩ := hdone
  have hbusy := busyReqs_of_none_busy s.threads hb
  have hprod : s.produced = N := by
    rw [hn] at h2 hp
    omega
  rw [hbusy, hq, hprod] at h1
  simp only [List.countP_nil, Nat.add_zero, Nat.cast_zero, add_zero] at h1
  refine ⟨h1, hq, ?_⟩
  rw [h3, hn, h1]
  constructor
  · intro h
    have hle : ((List.range N).map env.workload_get_path).countP (fun p => !pathTooLong p) ≤
        ((List.range N).map env.workload_get_path).length := List.countP_le_length _
    simp only [List.length_map, List.length_range] at hle
    omega
  · intro h
    rw [h]

end GF
